import Mathlib

/-!
# MultifuncTemplateExample: `Printer` / `Writable<T>` over an explicit heap

Shallow embedding of `src/main.cpp`.

* Objects of the held types `T`, the `Writable<T>` holder objects and the
  `Printer` objects live in three typed stores indexed by addresses
  (`0` is `nullptr`).
* `new` hands out addresses from a counter and never reuses one, so a
  dangling pointer never denotes a later object; `new` throws
  `std::bad_alloc` when the allocation budget of the world is exhausted.
* Every operation is a function `World V → Result V α`: it either returns,
  leaves by `std::bad_alloc` (with the world at that point), or has
  undefined behaviour (null dereference, access to a dead object, invalid
  `delete`).
* `std::cout` is the string `World.out`.
-/

namespace MultifuncTemplate

/-- Machine address; `0` is `nullptr`. -/
abbrev Addr := Nat

/-- The null pointer. -/
abbrev nullptr : Addr := 0

/-- Renderable type: supports `operator<<` to a stream (the only requirement on `T`). -/
class Renderable (V : Type) where
  /-- Text written by `os << v`. -/
  text : V → String

/-- Data members of `WritableBase` (`Writable<T>` adds none). -/
structure Writable where
  /-- Field `const void* _ptr`. -/
  _ptr : Addr
  /-- Field `bool _own`. -/
  _own : Bool
deriving DecidableEq, Repr

/-- Data members of `Printer`. -/
structure Printer where
  /-- Field `WritableBase* _wb`. -/
  _wb : Addr
deriving DecidableEq, Repr

/-- Program state: the three object stores, the allocator and the output. -/
structure World (V : Type) where
  /-- Live objects of the held types `T`. -/
  objs : Addr → Option V
  /-- Live `Writable<T>` objects. -/
  holders : Addr → Option Writable
  /-- Live `Printer` objects. -/
  printers : Addr → Option Printer
  /-- Next address handed out by `new`. -/
  next : Addr
  /-- Number of allocations that still succeed. -/
  budget : Nat
  /-- Addresses passed to a successful `delete`, most recent first. -/
  freed : List Addr
  /-- Text written to `std::cout`. -/
  out : String

/-- Kinds of undefined behaviour. -/
inductive Fault where
  | nullDeref
  | deadObject
  | badDelete
deriving DecidableEq, Repr

/-- Outcome of running an operation. -/
inductive Result (V α : Type) where
  | ok (a : α) (w : World V)
  | badAlloc (w : World V)
  | ub (f : Fault)

/-- Sequencing: continue on normal return, propagate an exception or a fault. -/
def Result.bind {V α β : Type} (r : Result V α) (k : α → World V → Result V β) : Result V β :=
  match r with
  | .ok a w => k a w
  | .badAlloc w => .badAlloc w
  | .ub f => .ub f

/-- Point update of a store. -/
def upd {α : Type} (f : Addr → Option α) (a : Addr) (x : Option α) : Addr → Option α :=
  fun b => if b = a then x else f b

section Ops

variable {V : Type}

/-- Expression `new T(v)`. -/
def newObj (v : V) (w : World V) : Result V Addr :=
  if w.budget = 0 then .badAlloc w
  else .ok w.next
    { w with objs := upd w.objs w.next (some v), next := w.next + 1, budget := w.budget - 1 }

/-- Read of the value of `*p`. -/
def readObj (p : Addr) (w : World V) : Result V V :=
  if p = nullptr then .ub .nullDeref
  else match w.objs p with
    | some v => .ok v w
    | none => .ub .deadObject

/-- Statement `*p = v` (main.cpp:154). -/
def writeObj (p : Addr) (v : V) (w : World V) : Result V Unit :=
  if p = nullptr then .ub .nullDeref
  else match w.objs p with
    | some _ => .ok () { w with objs := upd w.objs p (some v) }
    | none => .ub .deadObject

/-- Statement `delete p` for `p : const T*`. -/
def deleteObj (p : Addr) (w : World V) : Result V Unit :=
  if p = nullptr then .ok () w
  else match w.objs p with
    | some _ => .ok () { w with objs := upd w.objs p none, freed := p :: w.freed }
    | none => .ub .badDelete

/-- Lvalue `*p` bound to a reference (main.cpp:51, 93, 97): no check and no access, the
address is passed on as it is. -/
def derefRef (p : Addr) (w : World V) : Result V Addr :=
  .ok p w

/-- Access to the members of the holder `*self`. -/
def getHolder (self : Addr) (w : World V) : Result V Writable :=
  if self = nullptr then .ub .nullDeref
  else match w.holders self with
    | some h => .ok h w
    | none => .ub .deadObject

/-- Constructor `WritableBase(const void* ptr, const bool own)` (main.cpp:7). -/
def WritableBase.ctor (self ptr : Addr) (own : Bool) (w : World V) : Result V Unit :=
  .ok () { w with holders := upd w.holders self (some ⟨ptr, own⟩) }

/-- Method `WritableBase::isOwn` (main.cpp:14). -/
def WritableBase.isOwn (self : Addr) (w : World V) : Result V Bool :=
  (getHolder self w).bind fun h w => .ok h._own w

/-- Method `WritableBase::setPtr` (main.cpp:19). -/
def WritableBase.setPtr (self ptr : Addr) (w : World V) : Result V Unit :=
  (getHolder self w).bind fun h w =>
    .ok () { w with holders := upd w.holders self (some { h with _ptr := ptr }) }

/-- Method `WritableBase::getPtr` (main.cpp:20). -/
def WritableBase.getPtr (self : Addr) (w : World V) : Result V Addr :=
  (getHolder self w).bind fun h w => .ok h._ptr w

/-- Method `Writable<T>::getTPtr` (main.cpp:45-47). -/
def Writable.getTPtr (self : Addr) (w : World V) : Result V Addr :=
  WritableBase.getPtr self w

/-- Method `Writable<T>::cloneInnerObj` (main.cpp:67-70): `new T(*getTPtr())`. -/
def Writable.cloneInnerObj (self : Addr) (w : World V) : Result V Addr :=
  (Writable.getTPtr self w).bind fun p w =>
    (readObj p w).bind fun v w =>
      newObj v w

/-- Constructor `Writable<T>::Writable(const T& t, const bool own)` (main.cpp:32-37),
run on the storage at `self`; `t` is the address of the referenced object. -/
def Writable.ctor (self t : Addr) (own : Bool) (w : World V) : Result V Unit :=
  (WritableBase.ctor self t own w).bind fun _ w =>
    if own then
      (Writable.cloneInnerObj self w).bind fun innerObjClone w =>
        WritableBase.setPtr self innerObjClone w
    else .ok () w

/-- Expression `new Writable<T>(t, own)`: allocate, construct, and give the storage
back when the constructor leaves by an exception. -/
def newWritable (t : Addr) (own : Bool) (w : World V) : Result V Addr :=
  if w.budget = 0 then .badAlloc w
  else
    match Writable.ctor w.next t own { w with next := w.next + 1, budget := w.budget - 1 } with
    | .ok _ w1 => .ok w.next w1
    | .badAlloc w1 => .badAlloc { w1 with holders := upd w1.holders w.next none }
    | .ub f => .ub f

/-- Method `Writable<T>::freePtr` (main.cpp:55-59). -/
def Writable.freePtr (self : Addr) (w : World V) : Result V Unit :=
  (Writable.getTPtr self w).bind fun tPtr w =>
    (deleteObj tPtr w).bind fun _ w =>
      WritableBase.setPtr self nullptr w

/-- Destructor `Writable<T>::~Writable` (main.cpp:39-43). -/
def Writable.dtor (self : Addr) (w : World V) : Result V Unit :=
  (WritableBase.isOwn self w).bind fun own w =>
    if own then Writable.freePtr self w else .ok () w

/-- Statement `delete wb` for `wb : WritableBase*`: virtual destructor, then the
holder's storage is given back. -/
def deleteWritable (wb : Addr) (w : World V) : Result V Unit :=
  if wb = nullptr then .ok () w
  else match w.holders wb with
    | none => .ub .badDelete
    | some _ =>
      (Writable.dtor wb w).bind fun _ w =>
        .ok () { w with holders := upd w.holders wb none, freed := wb :: w.freed }

/-- Method `Writable<T>::Clone` (main.cpp:49-53): `new Writable<T>(*getTPtr(), isOwn())`. -/
def Writable.Clone (self : Addr) (w : World V) : Result V Addr :=
  (Writable.getTPtr self w).bind fun p w =>
    (derefRef p w).bind fun t w =>
      (WritableBase.isOwn self w).bind fun own w =>
        newWritable t own w

/-- Append to `std::cout`. -/
def putStr (s : String) (w : World V) : Result V Unit :=
  .ok () { w with out := w.out ++ s }

/-- Method `Writable<T>::Write` (main.cpp:61-64), reached through
`operator<<(std::ostream&, const WritableBase&)` (main.cpp:73-75). -/
def Writable.Write [Renderable V] (self : Addr) (w : World V) : Result V Unit :=
  (Writable.getTPtr self w).bind fun p w =>
    (readObj p w).bind fun tRef w =>
      putStr (Renderable.text tRef) w

/-- Access to the members of the printer `*this`. -/
def getPrinter (this : Addr) (w : World V) : Result V Printer :=
  match w.printers this with
  | some p => .ok p w
  | none => .ub .deadObject

/-- Assignment to the member `_wb` of `*this`. -/
def setWb (this wb : Addr) (w : World V) : Result V Unit :=
  match w.printers this with
  | some _ => .ok () { w with printers := upd w.printers this (some ⟨wb⟩) }
  | none => .ub .deadObject

/-- Constructor `Printer::Printer()` (main.cpp:80). -/
def Printer.ctor (this : Addr) (w : World V) : Result V Unit :=
  .ok () { w with printers := upd w.printers this (some ⟨nullptr⟩) }

/-- Method `Printer::reset` (main.cpp:117-122). -/
def Printer.reset (this : Addr) (w : World V) : Result V Unit :=
  (getPrinter this w).bind fun p w =>
    if p._wb ≠ nullptr then
      (deleteWritable p._wb w).bind fun _ w =>
        setWb this nullptr w
    else .ok () w

/-- Destructor `Printer::~Printer` (main.cpp:82-84); the printer object is dead afterwards. -/
def Printer.dtor (this : Addr) (w : World V) : Result V Unit :=
  (Printer.reset this w).bind fun _ w =>
    .ok () { w with printers := upd w.printers this none }

/-- Constructor `template<class T> Printer(const T& t)` (main.cpp:87-89);
`t` is the address of the referenced object. -/
def Printer.ctorRef (this t : Addr) (w : World V) : Result V Unit :=
  (newWritable t true w).bind fun wb w =>
    .ok () { w with printers := upd w.printers this (some ⟨wb⟩) }

/-- Constructors `template<class T> Printer(const T* t)` and `Printer(T* t)`
(main.cpp:92-98): `new Writable<T>(*t, false)`. -/
def Printer.ctorPtr (this t : Addr) (w : World V) : Result V Unit :=
  (derefRef t w).bind fun r w =>
    (newWritable r false w).bind fun wb w =>
      .ok () { w with printers := upd w.printers this (some ⟨wb⟩) }

/-- The implicitly declared copy constructor `Printer(const Printer&)`:
member-wise copy of `_wb`. -/
def Printer.copyCtor (this other : Addr) (w : World V) : Result V Unit :=
  (getPrinter other w).bind fun o w =>
    .ok () { w with printers := upd w.printers this (some ⟨o._wb⟩) }

/-- Copy assignment `Printer::operator=` (main.cpp:100-104). -/
def Printer.assign (this other : Addr) (w : World V) : Result V Unit :=
  (Printer.reset this w).bind fun _ w =>
    (getPrinter other w).bind fun o w =>
      (Writable.Clone o._wb w).bind fun c w =>
        setWb this c w

/-- Method `Printer::print` (main.cpp:106-113). -/
def Printer.print [Renderable V] (this : Addr) (w : World V) : Result V Unit :=
  (getPrinter this w).bind fun p w =>
    if p._wb ≠ nullptr then
      (WritableBase.isOwn p._wb w).bind fun own w =>
        (putStr (if own then "" else "[") w).bind fun _ w =>
          (Writable.Write p._wb w).bind fun _ w =>
            (putStr (if own then "" else "]") w).bind fun _ w =>
              putStr "\n" w
    else .ok () w

/-- Statement `printer = v;` as in main.cpp:147: a temporary `Printer` at `tmp` is
built from the object at `t`, assigned, and destroyed. -/
def Printer.assignValue (this tmp t : Addr) (w : World V) : Result V Unit :=
  (Printer.ctorRef tmp t w).bind fun _ w =>
    (Printer.assign this tmp w).bind fun _ w =>
      Printer.dtor tmp w

/-- Statement `printer = p;` as in main.cpp:151: a temporary `Printer` at `tmp` is
built from the pointer `p`, assigned, and destroyed. -/
def Printer.assignPtr (this tmp p : Addr) (w : World V) : Result V Unit :=
  (Printer.ctorPtr tmp p w).bind fun _ w =>
    (Printer.assign this tmp w).bind fun _ w =>
      Printer.dtor tmp w

end Ops

/-- Allocator consistency: null is never a live object and `new` hands out unused addresses. -/
structure World.WF {V : Type} (w : World V) : Prop where
  objs_null : w.objs nullptr = none
  holders_null : w.holders nullptr = none
  next_pos : 0 < w.next
  objs_fresh : ∀ a, w.next ≤ a → w.objs a = none
  holders_fresh : ∀ a, w.next ≤ a → w.holders a = none

/-- Sample held values: `int`, `std::string` and `NewStuff` (main.cpp:130-136). -/
inductive Val where
  | int (n : Int)
  | str (s : String)
  | newStuff (_num : Int)
deriving DecidableEq, Repr

/-- The `operator<<` of the sample types; for `NewStuff` main.cpp:138-141. -/
def Val.text : Val → String
  | .int n => toString n
  | .str s => s
  | .newStuff n => "NewStuff..." ++ (if n > 0 then toString n else "")

instance : Renderable Val := ⟨Val.text⟩

/-- World with no live object, nothing printed, and `budget` allocations available. -/
def World.empty (budget : Nat) : World Val :=
  { objs := fun _ => none, holders := fun _ => none, printers := fun _ => none,
    next := 1, budget := budget, freed := [], out := "" }

/-- Project the output of a run that returned. -/
def Result.out? {V α : Type} : Result V α → Option String
  | .ok _ w => some w.out
  | _ => none

/-- Project the fault of a run with undefined behaviour. -/
def Result.fault? {V α : Type} : Result V α → Option Fault
  | .ub f => some f
  | _ => none

/-- Sample world: an `int` 42 at address 1, an `int` 10 at address 2, nothing else. -/
def World.demo : World Val :=
  { World.empty 10 with
    objs := upd (upd (fun _ => none) 1 (some (.int 42))) 2 (some (.int 10)), next := 3 }

/-- The holder pointer `wd` of a printer can be released by `reset()`: it is null, or a live
holder whose storage, when owned, is a live object. -/
def Releasable {V : Type} (w : World V) (wd : Addr) : Prop :=
  wd = nullptr ∨ ∃ pd od, w.holders wd = some ⟨pd, od⟩ ∧ (od = true → ∃ u, w.objs pd = some u)

/-- Releasing the holder `wd` touches neither the holder `hs` nor the object `ps`:
`wd` is another holder than `hs`, and when it owns its storage that storage is not `ps`. -/
def Spares {V : Type} (w : World V) (wd hs ps : Addr) : Prop :=
  wd ≠ hs ∧ ∀ pd, w.holders wd = some ⟨pd, true⟩ → pd ≠ ps

/-- What the caller does between construction and later renders: writes to one of its
own objects (`*p = b`, main.cpp:154) and calls to `print()`. -/
inductive CallerStep (V : Type) where
  | write (b : V)
  | print

/-- Run caller steps in order: `write b` stores `b` at `t`, `print` calls `this->print()`. -/
def runCaller {V : Type} [Renderable V] (this t : Addr) :
    List (CallerStep V) → World V → Result V Unit
  | [], w => .ok () w
  | .write b :: rest, w => (writeObj t b w).bind fun _ w => runCaller this t rest w
  | .print :: rest, w => (Printer.print this w).bind fun _ w => runCaller this t rest w

/-- The text `line` once per `print` step. -/
def linesFor {V : Type} (line : String) : List (CallerStep V) → String
  | [] => ""
  | .write _ :: rest => linesFor line rest
  | .print :: rest => line ++ linesFor line rest

/-- Sample world with two printers: the printer at 100 owns a copy of the `int` 42 (holder 3,
storage 4), the printer at 101 borrows the `int` 10 at address 2 (holder 5). It is the
world that `Printer(const T&)` at 100 and `Printer(T*)` at 101 produce from `World.demo`. -/
def World.demo2 : World Val :=
  { World.empty 7 with
    objs := upd (upd (upd (fun _ => none) 1 (some (.int 42))) 2 (some (.int 10))) 4
      (some (.int 42)),
    holders := upd (upd (fun _ => none) 3 (some ⟨4, true⟩)) 5 (some ⟨2, false⟩),
    printers := upd (upd (fun _ => none) 100 (some ⟨3⟩)) 101 (some ⟨5⟩),
    next := 6 }

/-- Sample world for `NewStuff` (main.cpp:168-176): a default `NewStuff` at address 1 and a
`NewStuff(1)` at address 2. -/
def World.demo3 : World Val :=
  { World.empty 10 with
    objs := upd (upd (fun _ => none) 1 (some (.newStuff 0))) 2 (some (.newStuff 1)), next := 3 }

/-- Addresses passed to `delete` when the holder `wd` is released: the holder object, and
before it the storage it owns. -/
def released {V : Type} (w : World V) (wd : Addr) : List Addr :=
  match w.holders wd with
  | some ⟨pd, true⟩ => [wd, pd]
  | some ⟨_, false⟩ => [wd]
  | none => []

/-- Every live holder has a non-null `_ptr`. -/
def HoldersNonNull {V : Type} (w : World V) : Prop :=
  ∀ h p own, w.holders h = some ⟨p, own⟩ → p ≠ nullptr

/-- One call into the printer interface, or a store by the caller to one of its objects. -/
inductive BoxOp (V : Type) where
  | default (this : Addr)
  | fromValue (this t : Addr)
  | fromPtr (this p : Addr)
  | copy (this other : Addr)
  | copyAssign (this other : Addr)
  | print (this : Addr)
  | destroy (this : Addr)
  | store (p : Addr) (v : V)

/-- The operation does not hand a null pointer to `Printer(T*)`. -/
def BoxOp.PtrOK {V : Type} : BoxOp V → Prop
  | .fromPtr _ p => p ≠ nullptr
  | _ => True

/-- Run one operation. -/
def BoxOp.run {V : Type} [Renderable V] : BoxOp V → World V → Result V Unit
  | .default this, w => Printer.ctor this w
  | .fromValue this t, w => Printer.ctorRef this t w
  | .fromPtr this p, w => Printer.ctorPtr this p w
  | .copy this other, w => Printer.copyCtor this other w
  | .copyAssign this other, w => Printer.assign this other w
  | .print this, w => Printer.print this w
  | .destroy this, w => Printer.dtor this w
  | .store p v, w => writeObj p v w

/-- Run operations in order. -/
def runOps {V : Type} [Renderable V] : List (BoxOp V) → World V → Result V Unit
  | [], w => .ok () w
  | op :: rest, w => (op.run w).bind fun _ w => runOps rest w

/-- Project the holder at `a` after a run that returned. -/
def Result.holder? {V α : Type} (r : Result V α) (a : Addr) : Option Writable :=
  match r with
  | .ok _ w => w.holders a
  | _ => none

/-- Project the printer at `a` after a run that returned. -/
def Result.printer? {V α : Type} (r : Result V α) (a : Addr) : Option Printer :=
  match r with
  | .ok _ w => w.printers a
  | _ => none

/-- Source of one assignment to a printer: a value (`printer = v;`, the object at `t`), an
external address (`printer = p;`), or another printer (`printer = s;`). -/
inductive AssignSrc where
  | value (t : Addr)
  | addr (p : Addr)
  | box (s : Addr)
deriving DecidableEq, Repr

/-- Run one assignment to the printer `this`; for a value or an address the temporary
printer lives at `tmp` and is destroyed at the end of the statement. -/
def runAssign {V : Type} (this tmp : Addr) : AssignSrc → World V → Result V Unit
  | .value t, w => Printer.assignValue this tmp t w
  | .addr p, w => Printer.assignPtr this tmp p w
  | .box s, w => Printer.assign this s w

/-- Run assignments to the printer `this` in order. -/
def runAssigns {V : Type} (this tmp : Addr) : List AssignSrc → World V → Result V Unit
  | [], w => .ok () w
  | src :: rest, w => (runAssign this tmp src w).bind fun _ w => runAssigns this tmp rest w

/-- The source of an assignment is usable: the object or pointer refers to a live object
below `base`, and a source printer is another live printer whose holder and object are live
and below `base`. -/
def SrcOK {V : Type} (base this tmp : Addr) (w : World V) : AssignSrc → Prop
  | .value t => t < base ∧ ∃ v, w.objs t = some v
  | .addr p => p < base ∧ ∃ v, w.objs p = some v
  | .box s => s ≠ this ∧ s ≠ tmp ∧ ∃ hs ps os v, w.printers s = some ⟨hs⟩ ∧
      w.holders hs = some ⟨ps, os⟩ ∧ w.objs ps = some v ∧ hs < base ∧ ps < base

/-- State of the printer `this` with holder pointer `wb`, relative to the address `base`
from which the printer's own allocations start: the temporary at `tmp` is dead, the
holder can be released, the only live holder at or above `base` is `wb`, the only live
object at or above `base` is the storage `wb` owns, and the addresses `fs` freed since
the log was `f0` are pairwise distinct, at or above `base`, and not in use by `wb`. -/
def TidyAt {V : Type} (base this tmp : Addr) (f0 : List Addr) (wb : Addr) (fs : List Addr)
    (w : World V) : Prop :=
  w.WF ∧ base ≤ w.next ∧ w.printers tmp = none ∧ w.printers this = some ⟨wb⟩ ∧
  Releasable w wb ∧
  (∀ a, base ≤ a → a ≠ wb → w.holders a = none) ∧
  (∀ a, base ≤ a → w.holders wb ≠ some ⟨a, true⟩ → w.objs a = none) ∧
  (wb ≠ nullptr → base ≤ wb) ∧
  (∀ p, w.holders wb = some ⟨p, true⟩ → base ≤ p ∧ p ≠ wb) ∧
  w.freed = fs ++ f0 ∧ fs.Nodup ∧
  (∀ a, a ∈ fs → base ≤ a ∧ a < w.next ∧ a ≠ wb ∧ w.holders wb ≠ some ⟨a, true⟩)

/-- The printer `this` is in a tidy state for some holder pointer and some freed addresses. -/
def Tidy {V : Type} (base this tmp : Addr) (f0 : List Addr) (w : World V) : Prop :=
  ∃ wb fs, TidyAt base this tmp f0 wb fs w

/-- Nothing below `base` and no printer other than `this` differs between `w` and `w1`. -/
def SameOutside {V : Type} (base this : Addr) (w w1 : World V) : Prop :=
  (∀ a, a < base → w1.objs a = w.objs a) ∧ (∀ a, a < base → w1.holders a = w.holders a) ∧
  (∀ a, a ≠ this → w1.printers a = w.printers a)

/-- Project the log of frees after a run that returned. -/
def Result.freed? {V α : Type} : Result V α → Option (List Addr)
  | .ok _ w => some w.freed
  | _ => none

/-- Sample world for repeated assignment: `World.demo2` with a default-constructed printer
at 102 and 20 allocations available. -/
def World.demo4 : World Val :=
  { World.demo2 with printers := upd World.demo2.printers 102 (some ⟨nullptr⟩), budget := 20 }

/-- The operations of main.cpp:145-155 on the sample world `World.demo`: `printer = 42;`
and `printer = value;` each through a temporary printer at 200, three calls to `print()`
and the store `*value = 20`. -/
def mainOps : List (BoxOp Val) :=
  [.default 100, .fromValue 200 1, .copyAssign 100 200, .destroy 200, .print 100,
    .fromPtr 200 2, .copyAssign 100 200, .destroy 200, .print 100,
    .store 2 (Val.int 20), .print 100]

section Lemmas
variable {V : Type}

@[simp] theorem upd_same {α : Type} (f : Addr → Option α) (a : Addr) (x : Option α) :
    upd f a x a = x := by simp [upd]

theorem upd_other {α : Type} (f : Addr → Option α) (a b : Addr) (x : Option α) (h : b ≠ a) :
    upd f a x b = f b := by simp [upd, h]

@[simp] theorem upd_upd_same {α : Type} (f : Addr → Option α) (a : Addr) (x y : Option α) :
    upd (upd f a x) a y = upd f a y := by
  funext b
  simp only [upd]
  split <;> rfl

theorem World.WF.next_ne {w : World V} (hwf : w.WF) : w.next ≠ 0 :=
  Nat.pos_iff_ne_zero.mp hwf.next_pos

theorem World.WF.ne_null_of_obj {w : World V} (hwf : w.WF) {t : Addr} {v : V}
    (ht : w.objs t = some v) : t ≠ 0 := by
  intro h
  rw [h, hwf.objs_null] at ht
  cases ht

theorem World.WF.lt_of_obj {w : World V} (hwf : w.WF) {t : Addr} {v : V}
    (ht : w.objs t = some v) : t < w.next := by
  by_contra h
  rw [hwf.objs_fresh t (Nat.le_of_not_lt h)] at ht
  cases ht

theorem World.WF.lt_of_holder {w : World V} (hwf : w.WF) {a : Addr} {h : Writable}
    (ha : w.holders a = some h) : a < w.next := by
  by_contra hc
  rw [hwf.holders_fresh a (Nat.le_of_not_lt hc)] at ha
  cases ha

theorem newWritable_borrowed (w : World V) (t : Addr) (hb : w.budget ≠ 0) :
    newWritable t false w = .ok w.next
      { w with holders := upd w.holders w.next (some ⟨t, false⟩),
               next := w.next + 1, budget := w.budget - 1 } := by
  simp [newWritable, hb, Writable.ctor, WritableBase.ctor, Result.bind]

theorem newWritable_owned (w : World V) (t : Addr) (v : V) (hwf : w.WF)
    (ht : w.objs t = some v) (hb : 2 ≤ w.budget) :
    newWritable t true w = .ok w.next
      { w with objs := upd w.objs (w.next + 1) (some v),
               holders := upd w.holders w.next (some ⟨w.next + 1, true⟩),
               next := w.next + 1 + 1, budget := w.budget - 1 - 1 } := by
  have hb0 : w.budget ≠ 0 := by omega
  have hb1 : w.budget - 1 ≠ 0 := by omega
  simp [newWritable, hb0, hb1, hwf.next_ne, hwf.ne_null_of_obj ht, ht, Writable.ctor,
    WritableBase.ctor, Result.bind, Writable.cloneInnerObj, Writable.getTPtr,
    WritableBase.getPtr, getHolder, readObj, newObj, WritableBase.setPtr]

theorem Clone_eq (w : World V) (self p : Addr) (own : Bool) (hs : self ≠ 0) (_hp : p ≠ 0)
    (hh : w.holders self = some ⟨p, own⟩) :
    Writable.Clone self w = newWritable p own w := by
  simp [Writable.Clone, Writable.getTPtr, WritableBase.getPtr, WritableBase.isOwn, getHolder,
    derefRef, Result.bind, hs, hh]

theorem print_empty [Renderable V] (w : World V) (this : Addr)
    (hp : w.printers this = some ⟨nullptr⟩) : Printer.print this w = .ok () w := by
  simp [Printer.print, getPrinter, Result.bind, hp]

theorem print_holder [Renderable V] (w : World V) (this wb p : Addr) (own : Bool) (v : V)
    (hp : w.printers this = some ⟨wb⟩) (hwb : wb ≠ 0) (hh : w.holders wb = some ⟨p, own⟩)
    (hp0 : p ≠ 0) (hv : w.objs p = some v) :
    Printer.print this w = .ok ()
      { w with out := w.out ++ (if own then "" else "[") ++ Renderable.text v ++
          (if own then "" else "]") ++ "\n" } := by
  simp [Printer.print, getPrinter, Result.bind, hp, hwb, hh, hp0, hv, WritableBase.isOwn,
    getHolder, putStr, Writable.Write, Writable.getTPtr, WritableBase.getPtr, readObj]


theorem print_owned [Renderable V] (w : World V) (this wb p : Addr) (v : V)
    (hp : w.printers this = some ⟨wb⟩) (hwb : wb ≠ 0) (hh : w.holders wb = some ⟨p, true⟩)
    (hp0 : p ≠ 0) (hv : w.objs p = some v) :
    Printer.print this w = .ok () { w with out := w.out ++ Renderable.text v ++ "\n" } := by
  rw [print_holder w this wb p true v hp hwb hh hp0 hv]
  simp

theorem print_borrowed [Renderable V] (w : World V) (this wb p : Addr) (v : V)
    (hp : w.printers this = some ⟨wb⟩) (hwb : wb ≠ 0) (hh : w.holders wb = some ⟨p, false⟩)
    (hp0 : p ≠ 0) (hv : w.objs p = some v) :
    Printer.print this w =
      .ok () { w with out := w.out ++ "[" ++ Renderable.text v ++ "]" ++ "\n" } := by
  rw [print_holder w this wb p false v hp hwb hh hp0 hv]
  simp

theorem ctorRef_eq (w : World V) (this t : Addr) (v : V) (hwf : w.WF)
    (ht : w.objs t = some v) (hb : 2 ≤ w.budget) :
    Printer.ctorRef this t w = .ok ()
      { w with objs := upd w.objs (w.next + 1) (some v),
               holders := upd w.holders w.next (some ⟨w.next + 1, true⟩),
               printers := upd w.printers this (some ⟨w.next⟩),
               next := w.next + 1 + 1, budget := w.budget - 1 - 1 } := by
  simp only [Printer.ctorRef, newWritable_owned w t v hwf ht hb, Result.bind]

theorem ctorPtr_eq (w : World V) (this p : Addr) (_hp : p ≠ nullptr) (hb : 1 ≤ w.budget) :
    Printer.ctorPtr this p w = .ok ()
      { w with holders := upd w.holders w.next (some ⟨p, false⟩),
               printers := upd w.printers this (some ⟨w.next⟩),
               next := w.next + 1, budget := w.budget - 1 } := by
  have hb0 : w.budget ≠ 0 := by omega
  simp only [Printer.ctorPtr, derefRef, newWritable_borrowed w p hb0, Result.bind]

theorem writeObj_eq (w : World V) (p : Addr) (a b : V) (hp : p ≠ nullptr)
    (hv : w.objs p = some a) :
    writeObj p b w = .ok () { w with objs := upd w.objs p (some b) } := by
  simp [writeObj, hp, hv]

theorem runCaller_owned [Renderable V] (this t wb p : Addr) (v : V)
    (hwb : wb ≠ nullptr) (hp : p ≠ nullptr) (ht : t ≠ nullptr) (hpt : p ≠ t)
    (steps : List (CallerStep V)) :
    ∀ w : World V, w.printers this = some ⟨wb⟩ → w.holders wb = some ⟨p, true⟩ →
      w.objs p = some v → (∃ a, w.objs t = some a) →
      ∃ w2, runCaller this t steps w = .ok () w2 ∧
        w2.out = w.out ++ linesFor (Renderable.text v ++ "\n") steps := by
  induction steps with
  | nil => intro w _ _ _ _; exact ⟨w, rfl, by simp [linesFor]⟩
  | cons s rest ih =>
    intro w hpr hh hv hta
    obtain ⟨a, ha⟩ := hta
    cases s with
    | write b =>
      obtain ⟨w2, h2, ho⟩ := ih { w with objs := upd w.objs t (some b) } hpr hh
        (by simpa [upd, hpt] using hv) ⟨b, by simp⟩
      exact ⟨w2, by simp only [runCaller, writeObj_eq w t a b ht ha, Result.bind, h2],
        by simpa [linesFor] using ho⟩
    | print =>
      obtain ⟨w2, h2, ho⟩ := ih { w with out := w.out ++ Renderable.text v ++ "\n" }
        hpr hh hv ⟨a, ha⟩
      refine ⟨w2, ?_, ?_⟩
      · simp only [runCaller, print_owned w this wb p v hpr hwb hh hp hv, Result.bind, h2]
      · rw [ho]
        simp [linesFor, String.append_assoc]

theorem reset_empty (w : World V) (d : Addr) (hd : w.printers d = some ⟨nullptr⟩) :
    Printer.reset d w = .ok () w := by
  simp [Printer.reset, getPrinter, Result.bind, hd]

theorem reset_borrowed (w : World V) (d wd pd : Addr) (hd : w.printers d = some ⟨wd⟩)
    (hwd : wd ≠ nullptr) (hh : w.holders wd = some ⟨pd, false⟩) :
    Printer.reset d w = .ok ()
      { w with holders := upd w.holders wd none,
               printers := upd w.printers d (some ⟨nullptr⟩),
               freed := wd :: w.freed } := by
  simp [Printer.reset, getPrinter, Result.bind, hd, hwd, hh, deleteWritable, Writable.dtor,
    WritableBase.isOwn, getHolder, setWb]

theorem reset_owned (w : World V) (d wd pd : Addr) (u : V) (hd : w.printers d = some ⟨wd⟩)
    (hwd : wd ≠ nullptr) (hh : w.holders wd = some ⟨pd, true⟩) (hpd : pd ≠ nullptr)
    (hu : w.objs pd = some u) :
    Printer.reset d w = .ok ()
      { w with objs := upd w.objs pd none,
               holders := upd w.holders wd none,
               printers := upd w.printers d (some ⟨nullptr⟩),
               freed := wd :: pd :: w.freed } := by
  simp [Printer.reset, getPrinter, Result.bind, hd, hwd, hh, hpd, hu, deleteWritable,
    Writable.dtor, WritableBase.isOwn, getHolder, setWb, Writable.freePtr, Writable.getTPtr,
    WritableBase.getPtr, deleteObj, WritableBase.setPtr]

theorem World.WF.ne_null_of_holder {w : World V} (hwf : w.WF) {a : Addr} {h : Writable}
    (ha : w.holders a = some h) : a ≠ 0 := by
  intro h0
  rw [h0, hwf.holders_null] at ha
  cases ha

theorem reset_ok (w : World V) (d wd : Addr) (hwf : w.WF) (hd : w.printers d = some ⟨wd⟩)
    (hrel : Releasable w wd) :
    ∃ w1, Printer.reset d w = .ok () w1 ∧ w1.WF ∧
      w1.printers = upd w.printers d (some ⟨nullptr⟩) ∧
      (∀ a, a ≠ wd → w1.holders a = w.holders a) ∧
      (wd ≠ nullptr → w1.holders wd = none) ∧
      (∀ a, (∀ pd, w.holders wd = some ⟨pd, true⟩ → a ≠ pd) → w1.objs a = w.objs a) ∧
      (∀ pd, w.holders wd = some ⟨pd, true⟩ → w1.objs pd = none) ∧
      w1.next = w.next ∧ w1.budget = w.budget ∧ w1.out = w.out := by
  rcases hrel with h0 | ⟨pd, od, hh, hown⟩
  · subst h0
    refine ⟨w, reset_empty w d hd, hwf, ?_, fun _ _ => rfl, fun h => absurd rfl h,
      fun _ _ => rfl, ?_, rfl, rfl, rfl⟩
    · funext a
      by_cases ha : a = d
      · subst ha; simp [hd]
      · simp [upd, ha]
    · intro pd hpd
      rw [hwf.holders_null] at hpd
      cases hpd
  · have hwd : wd ≠ nullptr := hwf.ne_null_of_holder hh
    cases od with
    | false =>
      refine ⟨_, reset_borrowed w d wd pd hd hwd hh, ?_, rfl, ?_, fun _ => by simp,
        fun _ _ => rfl, ?_, rfl, rfl, rfl⟩
      · refine ⟨hwf.objs_null, ?_, hwf.next_pos, hwf.objs_fresh, ?_⟩
        · simp [upd, hwf.holders_null, Ne.symm hwd]
        · intro a ha
          simp only [upd]
          split
          · rfl
          · exact hwf.holders_fresh a ha
      · intro a ha
        simp [upd, ha]
      · intro pd1 h1
        rw [hh] at h1
        cases h1
    | true =>
      obtain ⟨u, hu⟩ := hown rfl
      have hpd : pd ≠ nullptr := hwf.ne_null_of_obj hu
      refine ⟨_, reset_owned w d wd pd u hd hwd hh hpd hu, ?_, rfl, ?_, fun _ => by simp,
        ?_, ?_, rfl, rfl, rfl⟩
      · refine ⟨?_, ?_, hwf.next_pos, ?_, ?_⟩
        · simp [upd, hwf.objs_null, Ne.symm hpd]
        · simp [upd, hwf.holders_null, Ne.symm hwd]
        · intro a ha
          simp only [upd]
          split
          · rfl
          · exact hwf.objs_fresh a ha
        · intro a ha
          simp only [upd]
          split
          · rfl
          · exact hwf.holders_fresh a ha
      · intro a ha
        simp [upd, ha]
      · intro a ha
        have : a ≠ pd := ha pd hh
        simp [upd, this]
      · intro pd1 h1
        rw [hh] at h1
        cases h1
        simp

theorem assign_ok (w : World V) (d s wd hs ps : Addr) (os : Bool) (v : V)
    (hwf : w.WF) (hds : d ≠ s) (hd : w.printers d = some ⟨wd⟩) (hrel : Releasable w wd)
    (hsp : Spares w wd hs ps) (hsrc : w.printers s = some ⟨hs⟩)
    (hh : w.holders hs = some ⟨ps, os⟩) (hv : w.objs ps = some v)
    (hb : (if os = true then 2 else 1) ≤ w.budget) :
    ∃ w1, Printer.assign d s w = .ok () w1 ∧ w1.WF ∧
      w1.printers = upd w.printers d (some ⟨w.next⟩) ∧
      w1.holders w.next = some ⟨if os = true then w.next + 1 else ps, os⟩ ∧
      (∀ a, a ≠ wd → a ≠ w.next → w1.holders a = w.holders a) ∧
      (os = true → w1.objs (w.next + 1) = some v) ∧
      (∀ a, (∀ pd, w.holders wd = some ⟨pd, true⟩ → a ≠ pd) →
        (os = true → a ≠ w.next + 1) → w1.objs a = w.objs a) ∧
      w1.out = w.out ∧ w.budget - 2 ≤ w1.budget ∧
      (wd ≠ nullptr → w1.holders wd = none) ∧
      (∀ pd, w.holders wd = some ⟨pd, true⟩ → w1.objs pd = none) := by
  obtain ⟨w0, hr, hwf0, hpr0, hho0, hhd0, hob0, hod0, hn0, hb0, hout0⟩ :=
    reset_ok w d wd hwf hd hrel
  have hwdn : wd ≠ nullptr → wd ≠ w.next := by
    intro h0
    rcases hrel with h | ⟨pd, od, hpd, -⟩
    · exact absurd h h0
    · exact Nat.ne_of_lt (hwf.lt_of_holder hpd)
  have hpdn : ∀ pd, w.holders wd = some ⟨pd, true⟩ → pd ≠ w.next + 1 := by
    intro pd hpd
    rcases hrel with h | ⟨pd1, od, hpd1, hlive⟩
    · rw [h, hwf.holders_null] at hpd
      cases hpd
    · rw [hpd1] at hpd
      cases hpd
      obtain ⟨u, hu⟩ := hlive rfl
      exact Nat.ne_of_lt (Nat.lt_succ_of_lt (hwf.lt_of_obj hu))
  have hs0 : hs ≠ nullptr := hwf.ne_null_of_holder hh
  have hps0 : ps ≠ nullptr := hwf.ne_null_of_obj hv
  have hsrc0 : w0.printers s = some ⟨hs⟩ := by
    rw [hpr0, upd_other _ _ _ _ (Ne.symm hds)]; exact hsrc
  have hd0 : w0.printers d = some ⟨nullptr⟩ := by rw [hpr0]; simp
  have hh0 : w0.holders hs = some ⟨ps, os⟩ := by
    rw [hho0 hs (Ne.symm hsp.1)]; exact hh
  have hv0 : w0.objs ps = some v := by
    rw [hob0 ps (fun pd hpd => Ne.symm (hsp.2 pd hpd))]; exact hv
  have hbud : (if os = true then 2 else 1) ≤ w0.budget := by rw [hb0]; exact hb
  have hnn : w.next ≠ 0 := hwf.next_ne
  have hstep : Printer.assign d s w =
      (newWritable ps os w0).bind fun c w => setWb d c w := by
    simp only [Printer.assign, hr, Result.bind, getPrinter, hsrc0,
      Clone_eq w0 hs ps os hs0 hps0 hh0]
  cases os with
  | false =>
    have hbud1 : w0.budget ≠ 0 := by
      have h1 : 1 ≤ w0.budget := by simpa using hbud
      omega
    rw [newWritable_borrowed w0 ps hbud1] at hstep
    simp only [Result.bind, setWb, hd0] at hstep
    refine ⟨_, hstep, ?_, ?_, ?_, ?_, ?_, ?_, hout0, ?_, ?_, ?_⟩
    · refine ⟨hwf0.objs_null, ?_, Nat.succ_pos _, ?_, ?_⟩
      · simp [upd, hwf0.holders_null, hn0, Ne.symm hnn]
      · intro a ha
        exact hwf0.objs_fresh a (Nat.le_of_succ_le ha)
      · intro a ha
        have : a ≠ w0.next := Nat.ne_of_gt ha
        simp only [upd, if_neg this]
        exact hwf0.holders_fresh a (Nat.le_of_succ_le ha)
    · simp only [hpr0, hn0, upd_upd_same]
    · simp [hn0]
    · intro a ha1 ha2
      simp [upd, hn0, ha2, hho0 a ha1]
    · intro h; cases h
    · intro a ha _
      exact hob0 a ha
    · simp only [hb0]; omega
    · intro h0
      simp [upd, hn0, hwdn h0, hhd0 h0]
    · intro pd hpd
      exact hod0 pd hpd
  | true =>
    have hbud2 : 2 ≤ w0.budget := by simpa using hbud
    rw [newWritable_owned w0 ps v hwf0 hv0 hbud2] at hstep
    simp only [Result.bind, setWb, hd0] at hstep
    refine ⟨_, hstep, ?_, ?_, ?_, ?_, ?_, ?_, hout0, ?_, ?_, ?_⟩
    · refine ⟨?_, ?_, Nat.succ_pos _, ?_, ?_⟩
      · simp [upd, hwf0.objs_null]
      · simp [upd, hwf0.holders_null, hn0, Ne.symm hnn]
      · intro a ha
        have : a ≠ w0.next + 1 := Nat.ne_of_gt ha
        simp only [upd, if_neg this]
        exact hwf0.objs_fresh a (Nat.le_of_succ_le (Nat.le_of_succ_le ha))
      · intro a ha
        have : a ≠ w0.next := Nat.ne_of_gt (Nat.lt_of_succ_lt ha)
        simp only [upd, if_neg this]
        exact hwf0.holders_fresh a (Nat.le_of_succ_le (Nat.le_of_succ_le ha))
    · simp only [hpr0, hn0, upd_upd_same]
    · simp [hn0]
    · intro a ha1 ha2
      simp [upd, hn0, ha2, hho0 a ha1]
    · intro _
      simp [hn0]
    · intro a ha hne
      have : a ≠ w.next + 1 := hne rfl
      simp [upd, hn0, this, hob0 a ha]
    · simp only [hb0]; omega
    · intro h0
      simp [upd, hn0, hwdn h0, hhd0 h0]
    · intro pd hpd
      simp [upd, hn0, hpdn pd hpd, hod0 pd hpd]

theorem reset_owned_null (w : World V) (d wd : Addr) (hd : w.printers d = some ⟨wd⟩)
    (hwd : wd ≠ nullptr) (hh : w.holders wd = some ⟨nullptr, true⟩) :
    Printer.reset d w = .ok ()
      { w with holders := upd w.holders wd none,
               printers := upd w.printers d (some ⟨nullptr⟩),
               freed := wd :: w.freed } := by
  simp [Printer.reset, getPrinter, Result.bind, hd, hwd, hh, deleteWritable,
    Writable.dtor, WritableBase.isOwn, getHolder, setWb, Writable.freePtr, Writable.getTPtr,
    WritableBase.getPtr, deleteObj, WritableBase.setPtr]

theorem reset_cases (w : World V) (d : Addr) :
    (∃ f, Printer.reset d w = .ub f) ∨
    (∃ w1, Printer.reset d w = .ok () w1 ∧ w1.printers d = some ⟨nullptr⟩ ∧
      ∀ s, s ≠ d → w1.printers s = w.printers s) := by
  cases hd : w.printers d with
  | none =>
    exact Or.inl ⟨.deadObject, by simp [Printer.reset, getPrinter, hd, Result.bind]⟩
  | some p =>
    obtain ⟨wd⟩ := p
    by_cases h0 : wd = nullptr
    · subst h0
      exact Or.inr ⟨w, reset_empty w d hd, hd, fun _ _ => rfl⟩
    · cases hh : w.holders wd with
      | none =>
        exact Or.inl ⟨.badDelete, by
          simp [Printer.reset, getPrinter, hd, Result.bind, h0, deleteWritable, hh]⟩
      | some h =>
        obtain ⟨pd, od⟩ := h
        cases od with
        | false =>
          exact Or.inr ⟨_, reset_borrowed w d wd pd hd h0 hh, by simp,
            fun s hs => by simp [upd, hs]⟩
        | true =>
          by_cases hp0 : pd = nullptr
          · subst hp0
            exact Or.inr ⟨_, reset_owned_null w d wd hd h0 hh, by simp,
              fun s hs => by simp [upd, hs]⟩
          · cases hu : w.objs pd with
            | none =>
              exact Or.inl ⟨.badDelete, by
                simp [Printer.reset, getPrinter, hd, Result.bind, h0, deleteWritable, hh,
                  Writable.dtor, WritableBase.isOwn, getHolder, Writable.freePtr,
                  Writable.getTPtr, WritableBase.getPtr, deleteObj, hp0, hu]⟩
            | some u =>
              exact Or.inr ⟨_, reset_owned w d wd pd u hd h0 hh hp0 hu, by simp,
                fun s hs => by simp [upd, hs]⟩

/-- When `reset()` leaves the source with a null `_wb`, `operator=` never returns. -/
theorem assign_null_source (w : World V) (d s : Addr)
    (hnull : ∀ w1, Printer.reset d w = .ok () w1 → w1.printers s = some ⟨nullptr⟩) :
    ∃ f, Printer.assign d s w = .ub f := by
  rcases reset_cases w d with ⟨f, hf⟩ | ⟨w1, h1, -, -⟩
  · exact ⟨f, by simp [Printer.assign, hf, Result.bind]⟩
  · refine ⟨.nullDeref, ?_⟩
    simp [Printer.assign, h1, Result.bind, getPrinter, hnull w1 h1, Writable.Clone,
      Writable.getTPtr, WritableBase.getPtr, getHolder]

theorem World.demo_wf : World.demo.WF := by
  refine ⟨rfl, rfl, by decide, ?_, ?_⟩
  · intro a ha
    have h1 : a ≠ 1 := by intro h; subst h; exact absurd ha (by decide)
    have h2 : a ≠ 2 := by intro h; subst h; exact absurd ha (by decide)
    simp [World.demo, World.empty, upd, h1, h2]
  · intro a _
    rfl

theorem World.demo2_wf : World.demo2.WF := by
  refine ⟨rfl, rfl, by decide, ?_, ?_⟩
  · intro a ha
    have h1 : a ≠ 1 := by intro h; subst h; exact absurd ha (by decide)
    have h2 : a ≠ 2 := by intro h; subst h; exact absurd ha (by decide)
    have h4 : a ≠ 4 := by intro h; subst h; exact absurd ha (by decide)
    simp [World.demo2, World.empty, upd, h1, h2, h4]
  · intro a ha
    have h3 : a ≠ 3 := by intro h; subst h; exact absurd ha (by decide)
    have h5 : a ≠ 5 := by intro h; subst h; exact absurd ha (by decide)
    simp [World.demo2, World.empty, upd, h3, h5]

/-- The two-printer sample world is what the two constructors produce from `World.demo`. -/
theorem World.demo2_reached :
    ((Printer.ctorRef 100 1 World.demo).bind fun _ w => Printer.ctorPtr 101 2 w)
      = .ok () World.demo2 := by
  rw [ctorRef_eq World.demo 100 1 (.int 42) World.demo_wf rfl (by decide)]
  simp only [Result.bind]
  rw [ctorPtr_eq _ 101 2 (by decide) (by decide)]
  rfl

theorem World.demo2_releasable_owned : Releasable World.demo2 3 :=
  Or.inr ⟨4, true, rfl, fun _ => ⟨.int 42, rfl⟩⟩

theorem World.demo2_releasable_borrowed : Releasable World.demo2 5 :=
  Or.inr ⟨2, false, rfl, fun h => absurd h (by decide)⟩

theorem World.demo2_spares_borrowed : Spares World.demo2 3 5 2 := by
  refine ⟨by decide, fun pd h => ?_⟩
  have h4 : World.demo2.holders 3 = some ⟨4, true⟩ := rfl
  rw [h4] at h
  cases h
  decide

theorem World.demo2_spares_owned : Spares World.demo2 5 3 4 := by
  refine ⟨by decide, fun pd h => ?_⟩
  have h5 : World.demo2.holders 5 = some ⟨2, false⟩ := rfl
  rw [h5] at h
  cases h

/-- Every run of `print()` is undefined behaviour or returns the same world with some text
appended to the output; that text does not depend on what was printed before. -/
theorem print_cases [Renderable V] (w : World V) (this : Addr) :
    (∃ f, ∀ o, Printer.print this { w with out := o } = .ub f) ∨
    (∃ txt, ∀ o, Printer.print this { w with out := o } = .ok () { w with out := o ++ txt }) := by
  cases hd : w.printers this with
  | none =>
    exact Or.inl ⟨.deadObject, fun o => by simp [Printer.print, getPrinter, hd, Result.bind]⟩
  | some pr =>
    obtain ⟨wb⟩ := pr
    by_cases h0 : wb = nullptr
    · subst h0
      refine Or.inr ⟨"", fun o => ?_⟩
      rw [print_empty _ this (by simpa using hd)]
      simp
    · cases hh : w.holders wb with
      | none =>
        exact Or.inl ⟨.deadObject, fun o => by
          simp [Printer.print, getPrinter, hd, Result.bind, h0, WritableBase.isOwn, getHolder,
            hh]⟩
      | some h =>
        obtain ⟨p, own⟩ := h
        by_cases hp0 : p = nullptr
        · subst hp0
          exact Or.inl ⟨.nullDeref, fun o => by
            simp [Printer.print, getPrinter, hd, Result.bind, h0, WritableBase.isOwn, getHolder,
              hh, putStr, Writable.Write, Writable.getTPtr, WritableBase.getPtr, readObj]⟩
        · cases hv : w.objs p with
          | none =>
            exact Or.inl ⟨.deadObject, fun o => by
              simp [Printer.print, getPrinter, hd, Result.bind, h0, WritableBase.isOwn,
                getHolder, hh, putStr, Writable.Write, Writable.getTPtr, WritableBase.getPtr,
                readObj, hp0, hv]⟩
          | some v =>
            refine Or.inr ⟨(if own = true then "" else "[") ++ Renderable.text v ++
              (if own = true then "" else "]") ++ "\n", fun o => ?_⟩
            rw [print_holder _ this wb p own v (by simpa using hd) h0 (by simpa using hh) hp0
              (by simpa using hv)]
            simp [String.append_assoc]

/-- Exact effect of `reset()` on a printer whose holder can be released. -/
theorem reset_eff (w : World V) (d wd : Addr) (hwf : w.WF) (hd : w.printers d = some ⟨wd⟩)
    (hrel : Releasable w wd) :
    ∃ w1, Printer.reset d w = .ok () w1 ∧ w1.WF ∧
      w1.printers = upd w.printers d (some ⟨nullptr⟩) ∧
      (∀ a, w1.holders a = if a = wd then none else w.holders a) ∧
      (∀ a, w1.objs a = if w.holders wd = some ⟨a, true⟩ then none else w.objs a) ∧
      w1.freed = released w wd ++ w.freed ∧
      w1.next = w.next ∧ w1.budget = w.budget ∧ w1.out = w.out := by
  obtain ⟨w1, hr, hwf1, hpr, -, -, -, -, -, -, -⟩ := reset_ok w d wd hwf hd hrel
  rcases hrel with h0 | ⟨pd, od, hh, hown⟩
  · subst h0
    have he := reset_empty w d hd
    rw [hr] at he
    cases he
    refine ⟨_, hr, hwf1, hpr, ?_, ?_, ?_, rfl, rfl, rfl⟩
    · intro a
      split
      · next h => rw [h]; exact hwf.holders_null
      · rfl
    · intro a
      simp [hwf.holders_null]
    · simp [released, hwf.holders_null]
  · have hwd : wd ≠ nullptr := hwf.ne_null_of_holder hh
    cases od with
    | false =>
      have he := reset_borrowed w d wd pd hd hwd hh
      rw [hr] at he
      cases he
      refine ⟨_, hr, hwf1, hpr, ?_, ?_, ?_, rfl, rfl, rfl⟩
      · intro a
        simp [upd]
      · intro a
        simp [hh]
      · simp [released, hh]
    | true =>
      obtain ⟨u, hu⟩ := hown rfl
      have he := reset_owned w d wd pd u hd hwd hh (hwf.ne_null_of_obj hu) hu
      rw [hr] at he
      cases he
      refine ⟨_, hr, hwf1, hpr, ?_, ?_, ?_, rfl, rfl, rfl⟩
      · intro a
        simp [upd]
      · intro a
        by_cases ha : a = pd
        · subst ha; simp [hh]
        · simp [upd, ha, hh, Ne.symm ha]
      · simp [released, hh]

/-- Exact effect of `~Printer()` on a printer whose holder can be released. -/
theorem dtor_eff (w : World V) (d wd : Addr) (hwf : w.WF) (hd : w.printers d = some ⟨wd⟩)
    (hrel : Releasable w wd) :
    ∃ w1, Printer.dtor d w = .ok () w1 ∧ w1.WF ∧
      w1.printers = upd w.printers d none ∧
      (∀ a, w1.holders a = if a = wd then none else w.holders a) ∧
      (∀ a, w1.objs a = if w.holders wd = some ⟨a, true⟩ then none else w.objs a) ∧
      w1.freed = released w wd ++ w.freed ∧
      w1.next = w.next ∧ w1.budget = w.budget ∧ w1.out = w.out := by
  obtain ⟨w1, hr, hwf1, hpr, hho, hob, hfr, hn, hb, ho⟩ := reset_eff w d wd hwf hd hrel
  refine ⟨{ w1 with printers := upd w1.printers d none }, ?_, ?_, ?_, hho, hob, hfr, hn, hb, ho⟩
  · simp only [Printer.dtor, hr, Result.bind]
  · exact ⟨hwf1.objs_null, hwf1.holders_null, hwf1.next_pos, hwf1.objs_fresh,
      hwf1.holders_fresh⟩
  · simp only [hpr, upd_upd_same]

/-- Exact effect of `operator=` in a state where the destination can release its holder
without touching the source. -/
theorem assign_eff (w : World V) (d s wd hs ps : Addr) (os : Bool) (v : V)
    (hwf : w.WF) (hds : d ≠ s) (hd : w.printers d = some ⟨wd⟩) (hrel : Releasable w wd)
    (hsp : Spares w wd hs ps) (hsrc : w.printers s = some ⟨hs⟩)
    (hh : w.holders hs = some ⟨ps, os⟩) (hv : w.objs ps = some v)
    (hb : (if os = true then 2 else 1) ≤ w.budget) :
    ∃ w1, Printer.assign d s w = .ok () w1 ∧ w1.WF ∧
      w1.printers = upd w.printers d (some ⟨w.next⟩) ∧
      (∀ a, w1.holders a =
        if a = w.next then some ⟨if os = true then w.next + 1 else ps, os⟩
        else if a = wd then none else w.holders a) ∧
      (∀ a, w1.objs a =
        if os = true ∧ a = w.next + 1 then some v
        else if w.holders wd = some ⟨a, true⟩ then none else w.objs a) ∧
      w1.freed = released w wd ++ w.freed ∧
      w1.next = w.next + (if os = true then 2 else 1) ∧
      w1.budget = w.budget - (if os = true then 2 else 1) ∧ w1.out = w.out := by
  obtain ⟨w0, hr, hwf0, hpr0, hho0, hob0, hfr0, hn0, hb0, hout0⟩ := reset_eff w d wd hwf hd hrel
  have hs0 : hs ≠ nullptr := hwf.ne_null_of_holder hh
  have hps0 : ps ≠ nullptr := hwf.ne_null_of_obj hv
  have hsrc0 : w0.printers s = some ⟨hs⟩ := by
    rw [hpr0, upd_other _ _ _ _ (Ne.symm hds)]; exact hsrc
  have hd0 : w0.printers d = some ⟨nullptr⟩ := by rw [hpr0]; simp
  have hh0 : w0.holders hs = some ⟨ps, os⟩ := by
    rw [hho0 hs, if_neg (Ne.symm hsp.1)]; exact hh
  have hv0 : w0.objs ps = some v := by
    rw [hob0 ps, if_neg (fun h => hsp.2 ps h rfl)]; exact hv
  have hbud : (if os = true then 2 else 1) ≤ w0.budget := by rw [hb0]; exact hb
  have hstep : Printer.assign d s w =
      (newWritable ps os w0).bind fun c w => setWb d c w := by
    simp only [Printer.assign, hr, Result.bind, getPrinter, hsrc0,
      Clone_eq w0 hs ps os hs0 hps0 hh0]
  obtain ⟨w1, has, hwf1, hpr1, hnew, hhold, hobjn, hobj, hout1, -, hwdn, hpdn⟩ :=
    assign_ok w d s wd hs ps os v hwf hds hd hrel hsp hsrc hh hv hb
  have hholders : ∀ a, w1.holders a =
      if a = w.next then some ⟨if os = true then w.next + 1 else ps, os⟩
      else if a = wd then none else w.holders a := by
    intro a
    by_cases h1 : a = w.next
    · rw [if_pos h1, h1]; exact hnew
    · rw [if_neg h1]
      by_cases h2 : a = wd
      · rw [if_pos h2, h2]
        by_cases h3 : wd = nullptr
        · rw [h3]; exact hwf1.holders_null
        · exact hwdn h3
      · rw [if_neg h2]; exact hhold a h2 h1
  have hobjs : ∀ a, w1.objs a =
      if os = true ∧ a = w.next + 1 then some v
      else if w.holders wd = some ⟨a, true⟩ then none else w.objs a := by
    intro a
    by_cases h1 : os = true ∧ a = w.next + 1
    · rw [if_pos h1, h1.2]; exact hobjn h1.1
    · rw [if_neg h1]
      by_cases h2 : w.holders wd = some ⟨a, true⟩
      · rw [if_pos h2]; exact hpdn a h2
      · rw [if_neg h2]
        refine hobj a (fun pd hpd hap => h2 (by rw [hap]; exact hpd)) (fun ho hap => h1 ⟨ho, hap⟩)
  cases os with
  | false =>
    have hbud1 : w0.budget ≠ 0 := by
      have h1 : 1 ≤ w0.budget := by simpa using hbud
      omega
    rw [newWritable_borrowed w0 ps hbud1] at hstep
    simp only [Result.bind, setWb, hd0] at hstep
    rw [has] at hstep
    cases hstep
    exact ⟨_, has, hwf1, hpr1, hholders, hobjs, hfr0, by simp [hn0], by simp [hb0], hout0⟩
  | true =>
    have hbud2 : 2 ≤ w0.budget := by simpa using hbud
    rw [newWritable_owned w0 ps v hwf0 hv0 hbud2] at hstep
    simp only [Result.bind, setWb, hd0] at hstep
    rw [has] at hstep
    cases hstep
    refine ⟨_, has, hwf1, hpr1, hholders, hobjs, hfr0, by simp [hn0], ?_, hout0⟩
    simp only [hb0, if_true]
    omega

theorem newWritable_fail_first (w : World V) (t : Addr) (own : Bool) (hb : w.budget = 0) :
    newWritable t own w = .badAlloc w := by
  simp [newWritable, hb]

theorem newWritable_fail_second (w : World V) (t : Addr) (v : V) (hwf : w.WF)
    (ht : w.objs t = some v) (hb : w.budget = 1) :
    newWritable t true w = .badAlloc
      { w with holders := upd w.holders w.next none, next := w.next + 1, budget := 0 } := by
  simp [newWritable, hb, hwf.next_ne, hwf.ne_null_of_obj ht, ht, Writable.ctor,
    WritableBase.ctor, Result.bind, Writable.cloneInnerObj, Writable.getTPtr,
    WritableBase.getPtr, getHolder, readObj, newObj]

/-- What a returning `new Writable<T>(t, own)` has done to the holders. -/
theorem newWritable_inv (w : World V) (t : Addr) (own : Bool) (c : Addr) (w1 : World V)
    (h : newWritable t own w = .ok c w1) :
    c = w.next ∧ w1.holders c = some ⟨if own = true then w.next + 1 else t, own⟩ ∧
      ∀ a, a ≠ c → w1.holders a = w.holders a := by
  by_cases hb : w.budget = 0
  · simp [newWritable, hb] at h
  · cases own with
    | false =>
      rw [newWritable_borrowed w t hb] at h
      cases h
      exact ⟨rfl, by simp, fun a ha => by simp [upd, ha]⟩
    | true =>
      by_cases hn : w.next = nullptr
      · simp [newWritable, hb, Writable.ctor, WritableBase.ctor, Result.bind,
          Writable.cloneInnerObj, Writable.getTPtr, WritableBase.getPtr, getHolder, hn] at h
      · by_cases ht : t = nullptr
        · simp [newWritable, hb, Writable.ctor, WritableBase.ctor, Result.bind,
            Writable.cloneInnerObj, Writable.getTPtr, WritableBase.getPtr, getHolder, hn,
            readObj, ht] at h
        · cases hv : w.objs t with
          | none =>
            simp [newWritable, hb, Writable.ctor, WritableBase.ctor, Result.bind,
              Writable.cloneInnerObj, Writable.getTPtr, WritableBase.getPtr, getHolder, hn,
              readObj, ht, hv] at h
          | some v =>
            by_cases hb1 : w.budget - 1 = 0
            · simp [newWritable, hb, Writable.ctor, WritableBase.ctor, Result.bind,
                Writable.cloneInnerObj, Writable.getTPtr, WritableBase.getPtr, getHolder, hn,
                readObj, ht, hv, newObj, hb1] at h
            · simp [newWritable, hb, Writable.ctor, WritableBase.ctor, Result.bind,
                Writable.cloneInnerObj, Writable.getTPtr, WritableBase.getPtr, getHolder, hn,
                readObj, ht, hv, newObj, hb1, WritableBase.setPtr] at h
              obtain ⟨rfl, rfl⟩ := h
              exact ⟨rfl, by simp, fun a ha => by simp [upd, ha]⟩

/-- What a returning `Clone()` has read from its own holder. -/
theorem Clone_inv (w : World V) (self c : Addr) (w1 : World V)
    (h : Writable.Clone self w = .ok c w1) :
    ∃ p own, w.holders self = some ⟨p, own⟩ ∧ newWritable p own w = .ok c w1 := by
  by_cases hs : self = nullptr
  · simp [Writable.Clone, Writable.getTPtr, WritableBase.getPtr, getHolder, hs, Result.bind] at h
  · cases hh : w.holders self with
    | none =>
      simp [Writable.Clone, Writable.getTPtr, WritableBase.getPtr, getHolder, hs, hh,
        Result.bind] at h
    | some x =>
      obtain ⟨p, own⟩ := x
      have he : Writable.Clone self w = newWritable p own w := by
        simp [Writable.Clone, Writable.getTPtr, WritableBase.getPtr, WritableBase.isOwn,
          getHolder, derefRef, Result.bind, hs, hh]
      rw [he] at h
      exact ⟨p, own, rfl, h⟩

/-- A returning `reset()` leaves every holder as it was or removes it. -/
theorem reset_holders (w : World V) (d : Addr) (w1 : World V)
    (h : Printer.reset d w = .ok () w1) :
    ∀ a, w1.holders a = none ∨ w1.holders a = w.holders a := by
  cases hd : w.printers d with
  | none => simp [Printer.reset, getPrinter, hd, Result.bind] at h
  | some pr =>
    obtain ⟨wd⟩ := pr
    by_cases h0 : wd = nullptr
    · subst h0
      rw [reset_empty w d hd] at h
      cases h
      exact fun a => Or.inr rfl
    · cases hh : w.holders wd with
      | none => simp [Printer.reset, getPrinter, hd, Result.bind, h0, deleteWritable, hh] at h
      | some x =>
        obtain ⟨pd, od⟩ := x
        have key : ∀ a, upd w.holders wd none a = none ∨ upd w.holders wd none a = w.holders a := by
          intro a
          by_cases ha : a = wd
          · left; simp [ha]
          · right; simp [upd, ha]
        cases od with
        | false =>
          rw [reset_borrowed w d wd pd hd h0 hh] at h
          cases h
          exact key
        | true =>
          by_cases hp0 : pd = nullptr
          · subst hp0
            rw [reset_owned_null w d wd hd h0 hh] at h
            cases h
            exact key
          · cases hu : w.objs pd with
            | none =>
              simp [Printer.reset, getPrinter, hd, Result.bind, h0, deleteWritable, hh,
                Writable.dtor, WritableBase.isOwn, getHolder, Writable.freePtr,
                Writable.getTPtr, WritableBase.getPtr, deleteObj, hp0, hu] at h
            | some u =>
              rw [reset_owned w d wd pd u hd h0 hh hp0 hu] at h
              cases h
              exact key

theorem HoldersNonNull.of_sub {w w1 : World V} (hnn : HoldersNonNull w)
    (h : ∀ a, w1.holders a = none ∨ w1.holders a = w.holders a) : HoldersNonNull w1 := by
  intro a p own ha
  rcases h a with h1 | h1
  · rw [h1] at ha; cases ha
  · rw [h1] at ha; exact hnn a p own ha

theorem HoldersNonNull.of_new {w w1 : World V} (hnn : HoldersNonNull w) (c p : Addr)
    (own : Bool) (hp : p ≠ nullptr) (hc : w1.holders c = some ⟨p, own⟩)
    (h : ∀ a, a ≠ c → w1.holders a = w.holders a) : HoldersNonNull w1 := by
  intro a q o ha
  by_cases hac : a = c
  · rw [hac, hc] at ha
    cases ha
    exact hp
  · rw [h a hac] at ha
    exact hnn a q o ha

/-- No operation of the printer interface other than `Printer(T*)` on a null pointer, when
it returns, leaves a live holder with a null `_ptr`. -/
theorem BoxOp.run_nonNull [Renderable V] (op : BoxOp V) (w w1 : World V)
    (hok : op.PtrOK) (hnn : HoldersNonNull w) (h : op.run w = .ok () w1) :
    HoldersNonNull w1 := by
  cases op with
  | default this =>
    simp only [BoxOp.run, Printer.ctor] at h
    cases h
    exact hnn
  | fromValue this t =>
    simp only [BoxOp.run, Printer.ctorRef] at h
    cases hw : newWritable t true w with
    | ok c w2 =>
      rw [hw] at h
      simp only [Result.bind] at h
      cases h
      obtain ⟨hc, hnew, hfr⟩ := newWritable_inv w t true c w2 hw
      exact hnn.of_new c (w.next + 1) true (Nat.succ_ne_zero _) (by simpa using hnew) hfr
    | badAlloc w2 => rw [hw] at h; simp [Result.bind] at h
    | ub f => rw [hw] at h; simp [Result.bind] at h
  | fromPtr this p =>
    have hp : p ≠ nullptr := hok
    simp only [BoxOp.run, Printer.ctorPtr, derefRef, Result.bind] at h
    cases hw : newWritable p false w with
    | ok c w2 =>
      rw [hw] at h
      cases h
      obtain ⟨hc, hnew, hfr⟩ := newWritable_inv w p false c w2 hw
      exact hnn.of_new c p false hp (by simpa using hnew) hfr
    | badAlloc w2 => rw [hw] at h; simp at h
    | ub f => rw [hw] at h; simp at h
  | copy this other =>
    simp only [BoxOp.run, Printer.copyCtor, getPrinter] at h
    cases ho : w.printers other with
    | none => rw [ho] at h; simp [Result.bind] at h
    | some o =>
      rw [ho] at h
      simp only [Result.bind] at h
      cases h
      exact hnn
  | copyAssign this other =>
    simp only [BoxOp.run, Printer.assign] at h
    cases hr : Printer.reset this w with
    | ok u w0 =>
      cases u
      rw [hr] at h
      simp only [Result.bind, getPrinter] at h
      have hnn0 : HoldersNonNull w0 := hnn.of_sub (reset_holders w this w0 hr)
      cases ho : w0.printers other with
      | none => rw [ho] at h; simp at h
      | some o =>
        rw [ho] at h
        simp only at h
        cases hc : Writable.Clone o._wb w0 with
        | ok c w2 =>
          rw [hc] at h
          simp only [setWb] at h
          obtain ⟨p, own, hh, hw⟩ := Clone_inv w0 o._wb c w2 hc
          have hp : p ≠ nullptr := hnn0 o._wb p own hh
          obtain ⟨-, hnew, hfr⟩ := newWritable_inv w0 p own c w2 hw
          have hnn2 : HoldersNonNull w2 := by
            cases own with
            | false => exact hnn0.of_new c p false hp (by simpa using hnew) hfr
            | true =>
              exact hnn0.of_new c (w0.next + 1) true (Nat.succ_ne_zero _)
                (by simpa using hnew) hfr
          cases hd : w2.printers this with
          | none => rw [hd] at h; simp at h
          | some x =>
            rw [hd] at h
            cases h
            exact hnn2
        | badAlloc w2 => rw [hc] at h; simp at h
        | ub f => rw [hc] at h; simp at h
    | badAlloc w0 => rw [hr] at h; simp [Result.bind] at h
    | ub f => rw [hr] at h; simp [Result.bind] at h
  | print this =>
    simp only [BoxOp.run] at h
    rcases print_cases w this with ⟨f, hf⟩ | ⟨txt, ht⟩
    · rw [show w = { w with out := w.out } from rfl, hf w.out] at h
      cases h
    · rw [show w = { w with out := w.out } from rfl, ht w.out] at h
      cases h
      exact hnn
  | destroy this =>
    simp only [BoxOp.run, Printer.dtor] at h
    cases hr : Printer.reset this w with
    | ok u w0 =>
      rw [hr] at h
      simp only [Result.bind] at h
      cases h
      exact hnn.of_sub (reset_holders w this w0 hr)
    | badAlloc w0 => rw [hr] at h; simp [Result.bind] at h
    | ub f => rw [hr] at h; simp [Result.bind] at h
  | store p v =>
    simp only [BoxOp.run, writeObj] at h
    by_cases hp : p = nullptr
    · simp [hp] at h
    · simp only [if_neg hp] at h
      cases hv : w.objs p with
      | none => rw [hv] at h; simp at h
      | some x =>
        rw [hv] at h
        cases h
        exact hnn

theorem runOps_nonNull [Renderable V] (ops : List (BoxOp V)) :
    ∀ (w w1 : World V), (∀ op, op ∈ ops → op.PtrOK) → HoldersNonNull w →
      runOps ops w = .ok () w1 → HoldersNonNull w1 := by
  induction ops with
  | nil =>
    intro w w1 _ hnn h
    simp only [runOps] at h
    cases h
    exact hnn
  | cons op rest ih =>
    intro w w1 hok hnn h
    simp only [runOps] at h
    cases hr : op.run w with
    | ok u w0 =>
      rw [hr] at h
      exact ih w0 w1 (fun o ho => hok o (List.mem_cons_of_mem _ ho))
        (op.run_nonNull w w0 (hok op (List.mem_cons_self _ _)) hnn hr) h
    | badAlloc w0 => rw [hr] at h; simp [Result.bind] at h
    | ub f => rw [hr] at h; simp [Result.bind] at h

theorem mem_released {w : World V} (hwf : w.WF) {wb : Addr} (hrel : Releasable w wb) {a : Addr}
    (ha : a ∈ released w wb) :
    a < w.next ∧ (a = wb ∧ wb ≠ nullptr ∨ w.holders wb = some ⟨a, true⟩) := by
  rcases hrel with h0 | ⟨pd, od, hh, hlive⟩
  · subst h0
    simp [released, hwf.holders_null] at ha
  · have hwb : wb < w.next := hwf.lt_of_holder hh
    have hwb0 : wb ≠ nullptr := hwf.ne_null_of_holder hh
    cases od with
    | false =>
      simp [released, hh] at ha
      subst ha
      exact ⟨hwb, Or.inl ⟨rfl, hwb0⟩⟩
    | true =>
      obtain ⟨u, hu⟩ := hlive rfl
      simp [released, hh] at ha
      rcases ha with ha | ha
      · subst ha
        exact ⟨hwb, Or.inl ⟨rfl, hwb0⟩⟩
      · subst ha
        exact ⟨hwf.lt_of_obj hu, Or.inr hh⟩

theorem nodup_released {w : World V} {wb : Addr}
    (hne : ∀ p, w.holders wb = some ⟨p, true⟩ → p ≠ wb) : (released w wb).Nodup := by
  cases hh : w.holders wb with
  | none => simp [released, hh]
  | some x =>
    obtain ⟨pd, od⟩ := x
    cases od with
    | false => simp [released, hh]
    | true =>
      have := hne pd hh
      simp [released, hh, Ne.symm this]

/-- One assignment step keeps the printer tidy, given the exact shape of the world after
it: new holder `c` over `q` with mode `os`, temporaries `ts` created and destroyed. -/
theorem tidy_step (base this tmp : Addr) (f0 : List Addr) (wb : Addr) (fs : List Addr)
    (w w1 : World V) (c q : Addr) (os : Bool) (ts : List Addr)
    (ht : TidyAt base this tmp f0 wb fs w)
    (hwf1 : w1.WF) (hc : w.next ≤ c) (hc1 : c < w1.next)
    (hp1 : w1.printers this = some ⟨c⟩) (hpt : w1.printers tmp = none)
    (hpo : ∀ a, a ≠ this → a ≠ tmp → w1.printers a = w.printers a)
    (hts : ts.Nodup)
    (htsb : ∀ a, a ∈ ts → w.next ≤ a ∧ a < w1.next ∧ a ≠ c ∧ (os = true → a ≠ q))
    (hq : os = true → w.next ≤ q ∧ q ≠ c ∧ ∃ v, w1.objs q = some v)
    (hH : ∀ a, w1.holders a =
      if a = c then some ⟨q, os⟩ else if a ∈ ts then none
      else if a = wb then none else w.holders a)
    (hO : ∀ a, ¬ (os = true ∧ a = q) → w1.objs a =
      if a ∈ ts then none else if w.holders wb = some ⟨a, true⟩ then none else w.objs a)
    (hF : w1.freed = ts ++ (released w wb ++ w.freed)) :
    TidyAt base this tmp f0 c (ts ++ (released w wb ++ fs)) w1 ∧ SameOutside base this w w1 := by
  obtain ⟨hwf, hbase, htmp, hthis, hrel, hHw, hOw, hwbb, hpb, hfr, hnd, hfs⟩ := ht
  have hc0 : c ≠ nullptr := by
    intro h
    have h1 : w.next ≤ c := hc
    rw [h] at h1
    exact hwf.next_ne (Nat.le_zero.mp h1)
  have hcc : w1.holders c = some ⟨q, os⟩ := by rw [hH c, if_pos rfl]
  have hnot : ∀ a, a < w.next → w1.holders c ≠ some ⟨a, true⟩ := by
    intro a ha h
    rw [hcc] at h
    cases h
    exact absurd ((hq rfl).1) (Nat.not_le.mpr ha)
  have hrelm : ∀ a, a ∈ released w wb → base ≤ a ∧ a < w.next := by
    intro a ha
    obtain ⟨hlt, hor⟩ := mem_released hwf hrel ha
    refine ⟨?_, hlt⟩
    rcases hor with ⟨rfl, h0⟩ | h
    · exact hwbb h0
    · exact (hpb a h).1
  have hold : ∀ a, a ∈ released w wb ++ fs → base ≤ a ∧ a < w.next := by
    intro a ha
    rcases List.mem_append.mp ha with h | h
    · exact hrelm a h
    · exact ⟨(hfs a h).1, (hfs a h).2.1⟩
  refine ⟨⟨hwf1, Nat.le_trans hbase (Nat.le_trans hc (Nat.le_of_lt hc1)), hpt, hp1,
    Or.inr ⟨q, os, hcc, fun ho => (hq ho).2.2⟩, ?_, ?_, fun _ => Nat.le_trans hbase hc, ?_,
    ?_, ?_, ?_⟩, ?_, ?_, ?_⟩
  · intro a hab hac
    rw [hH a, if_neg hac]
    by_cases h1 : a ∈ ts
    · rw [if_pos h1]
    · rw [if_neg h1]
      by_cases h2 : a = wb
      · rw [if_pos h2]
      · rw [if_neg h2]
        exact hHw a hab h2
  · intro a hab hne
    have hnq : ¬ (os = true ∧ a = q) := by
      rintro ⟨ho, haq⟩
      apply hne
      rw [hcc, ho, haq]
    rw [hO a hnq]
    by_cases h1 : a ∈ ts
    · rw [if_pos h1]
    · rw [if_neg h1]
      by_cases h2 : w.holders wb = some ⟨a, true⟩
      · rw [if_pos h2]
      · rw [if_neg h2]
        exact hOw a hab h2
  · intro p hp
    rw [hcc] at hp
    cases hp
    exact ⟨Nat.le_trans hbase (hq rfl).1, (hq rfl).2.1⟩
  · rw [hF, hfr]
    simp [List.append_assoc]
  · refine List.Nodup.append hts (List.Nodup.append (nodup_released fun p hp => (hpb p hp).2)
      hnd ?_) ?_
    · intro a ha hb
      rcases (mem_released hwf hrel ha).2 with ⟨rfl, -⟩ | h
      · exact (hfs _ hb).2.2.1 rfl
      · exact (hfs a hb).2.2.2 h
    · intro a ha hb
      exact absurd (htsb a ha).1 (Nat.not_le.mpr (hold a hb).2)
  · intro a ha
    rcases List.mem_append.mp ha with h | h
    · obtain ⟨h1, h2, h3, h4⟩ := htsb a h
      refine ⟨Nat.le_trans hbase h1, h2, h3, ?_⟩
      intro hh
      rw [hcc] at hh
      cases hh
      exact h4 rfl rfl
    · obtain ⟨h1, h2⟩ := hold a h
      exact ⟨h1, Nat.lt_of_lt_of_le h2 (Nat.le_trans hc (Nat.le_of_lt hc1)),
        Nat.ne_of_lt (Nat.lt_of_lt_of_le h2 hc), hnot a h2⟩
  · intro a ha
    have han : a < w.next := Nat.lt_of_lt_of_le ha hbase
    have hnq : ¬ (os = true ∧ a = q) := by
      rintro ⟨ho, haq⟩
      exact absurd (hq ho).1 (Nat.not_le.mpr (haq ▸ han))
    rw [hO a hnq]
    have h1 : a ∉ ts := fun h => absurd (htsb a h).1 (Nat.not_le.mpr han)
    have h2 : w.holders wb ≠ some ⟨a, true⟩ := fun h =>
      absurd (hpb a h).1 (Nat.not_le.mpr ha)
    rw [if_neg h1, if_neg h2]
  · intro a ha
    have han : a < w.next := Nat.lt_of_lt_of_le ha hbase
    have h0 : a ≠ c := Nat.ne_of_lt (Nat.lt_of_lt_of_le han hc)
    have h1 : a ∉ ts := fun h => absurd (htsb a h).1 (Nat.not_le.mpr han)
    rw [hH a, if_neg h0, if_neg h1]
    by_cases h2 : a = wb
    · rw [if_pos h2]
      by_cases h3 : wb = nullptr
      · rw [h2, h3, hwf.holders_null]
      · exact absurd (hwbb h3) (Nat.not_le.mpr (h2 ▸ ha))
    · rw [if_neg h2]
  · intro a ha
    by_cases h1 : a = tmp
    · rw [h1, hpt, htmp]
    · exact hpo a ha h1

theorem Releasable.lt_next {w : World V} (hwf : w.WF) {wb : Addr} (hrel : Releasable w wb) :
    wb < w.next := by
  rcases hrel with h | ⟨pd, od, hh, -⟩
  · rw [h]; exact hwf.next_pos
  · exact hwf.lt_of_holder hh

theorem Releasable.owned_lt {w : World V} (hwf : w.WF) {wb : Addr} (hrel : Releasable w wb)
    {pd : Addr} (hh : w.holders wb = some ⟨pd, true⟩) : pd < w.next := by
  rcases hrel with h | ⟨pd1, od, hh1, hlive⟩
  · rw [h, hwf.holders_null] at hh
    cases hh
  · rw [hh1] at hh
    cases hh
    obtain ⟨u, hu⟩ := hlive rfl
    exact hwf.lt_of_obj hu

theorem Releasable.congr {w w1 : World V} {wb : Addr} (hrel : Releasable w wb)
    (hh : w1.holders wb = w.holders wb)
    (ho : ∀ pd, w.holders wb = some ⟨pd, true⟩ → w1.objs pd = w.objs pd) :
    Releasable w1 wb := by
  rcases hrel with h | ⟨pd, od, hh1, hlive⟩
  · exact Or.inl h
  · refine Or.inr ⟨pd, od, by rw [hh, hh1], fun hod => ?_⟩
    obtain ⟨u, hu⟩ := hlive hod
    subst hod
    exact ⟨u, by rw [ho pd hh1, hu]⟩

theorem released_congr {w w1 : World V} {wb : Addr} (hh : w1.holders wb = w.holders wb) :
    released w1 wb = released w wb := by
  simp only [released, hh]

/-- Assignment from another printer keeps the printer tidy. -/
theorem step_box (base this tmp : Addr) (f0 : List Addr) (wb : Addr) (fs : List Addr)
    (w : World V) (s : Addr) (hne : this ≠ tmp) (ht : TidyAt base this tmp f0 wb fs w)
    (hsrc : SrcOK base this tmp w (.box s)) (hb : 4 ≤ w.budget) :
    ∃ w1, runAssign this tmp (.box s) w = .ok () w1 ∧ Tidy base this tmp f0 w1 ∧
      SameOutside base this w w1 ∧ w.budget - 4 ≤ w1.budget := by
  have ht0 := ht
  obtain ⟨hwf, hbase, htmp, hthis, hrel, hHw, hOw, hwbb, hpb, hfr, hnd, hfs⟩ := ht
  obtain ⟨hs1, hs2, hs, ps, os, v, hps, hh, hv, hsb, hpsb⟩ := hsrc
  have hsp : Spares w wb hs ps := by
    refine ⟨fun h => ?_, fun pd hpd h => ?_⟩
    · have h0 : wb ≠ nullptr := by rw [h]; exact hwf.ne_null_of_holder hh
      exact absurd (hwbb h0) (Nat.not_le.mpr (h ▸ hsb))
    · exact absurd (hpb pd hpd).1 (Nat.not_le.mpr (h ▸ hpsb))
  have hb2 : (if os = true then 2 else 1) ≤ w.budget := by split <;> omega
  obtain ⟨w1, has, hwf1, hpr1, hho1, hob1, hfr1, hn1, hbu1, -⟩ :=
    assign_eff w this s wb hs ps os v hwf (Ne.symm hs1) hthis hrel hsp hps hh hv hb2
  have hp1 : w1.printers this = some ⟨w.next⟩ := by rw [hpr1]; simp
  have hpt : w1.printers tmp = none := by
    rw [hpr1, upd_other _ _ _ _ (Ne.symm hne)]; exact htmp
  have hpo : ∀ a, a ≠ this → a ≠ tmp → w1.printers a = w.printers a :=
    fun a ha _ => by rw [hpr1, upd_other _ _ _ _ ha]
  cases os with
  | false =>
    have hn : w1.next = w.next + 1 := by simpa using hn1
    have hbu : w1.budget = w.budget - 1 := by simpa using hbu1
    have hstep := tidy_step base this tmp f0 wb fs w w1 w.next ps false [] ht0 hwf1
      (Nat.le_refl _) (by rw [hn]; exact Nat.lt_succ_self _) hp1 hpt hpo
      List.nodup_nil (fun a ha => absurd ha (List.not_mem_nil a))
      (fun ho => by cases ho)
      (fun a => by simp [hho1 a])
      (fun a _ => by simp [hob1 a])
      (by simp [hfr1])
    exact ⟨w1, has, ⟨_, _, hstep.1⟩, hstep.2, by rw [hbu]; omega⟩
  | true =>
    have hn : w1.next = w.next + 2 := by simpa using hn1
    have hbu : w1.budget = w.budget - 2 := by simpa using hbu1
    have hstep := tidy_step base this tmp f0 wb fs w w1 w.next (w.next + 1) true [] ht0 hwf1
      (Nat.le_refl _) (by rw [hn]; exact Nat.lt_succ_of_lt (Nat.lt_succ_self _)) hp1 hpt hpo
      List.nodup_nil (fun a ha => absurd ha (List.not_mem_nil a))
      (fun _ => ⟨Nat.le_succ _, Nat.succ_ne_self _, v, by simp [hob1]⟩)
      (fun a => by simp [hho1 a])
      (fun a hna => by
        have h1 : a ≠ w.next + 1 := fun h => hna ⟨rfl, h⟩
        simp [hob1 a, h1])
      (by simp [hfr1])
    exact ⟨w1, has, ⟨_, _, hstep.1⟩, hstep.2, by rw [hbu]; omega⟩

/-- Effect of `Printer(T*)` from a non-null pointer. -/
theorem ctorPtr_eff (w : World V) (this p : Addr) (hwf : w.WF) (hp : p ≠ nullptr)
    (hb : 1 ≤ w.budget) :
    ∃ w1, Printer.ctorPtr this p w = .ok () w1 ∧ w1.WF ∧ w1.objs = w.objs ∧
      w1.holders = upd w.holders w.next (some ⟨p, false⟩) ∧
      w1.printers = upd w.printers this (some ⟨w.next⟩) ∧
      w1.next = w.next + 1 ∧ w1.budget = w.budget - 1 ∧ w1.freed = w.freed := by
  refine ⟨_, ctorPtr_eq w this p hp hb, ?_, rfl, rfl, rfl, rfl, rfl, rfl⟩
  refine ⟨hwf.objs_null, ?_, Nat.succ_pos _, ?_, ?_⟩
  · simp [upd, hwf.holders_null, Ne.symm hwf.next_ne]
  · intro a ha
    exact hwf.objs_fresh a (Nat.le_of_succ_le ha)
  · intro a ha
    have : a ≠ w.next := Nat.ne_of_gt ha
    simp only [upd, if_neg this]
    exact hwf.holders_fresh a (Nat.le_of_succ_le ha)

/-- Effect of `Printer(const T&)` from a live object. -/
theorem ctorRef_eff (w : World V) (this t : Addr) (v : V) (hwf : w.WF)
    (ht : w.objs t = some v) (hb : 2 ≤ w.budget) :
    ∃ w1, Printer.ctorRef this t w = .ok () w1 ∧ w1.WF ∧
      w1.objs = upd w.objs (w.next + 1) (some v) ∧
      w1.holders = upd w.holders w.next (some ⟨w.next + 1, true⟩) ∧
      w1.printers = upd w.printers this (some ⟨w.next⟩) ∧
      w1.next = w.next + 2 ∧ w1.budget = w.budget - 2 ∧ w1.freed = w.freed := by
  refine ⟨_, ctorRef_eq w this t v hwf ht hb, ?_, rfl, rfl, rfl, rfl, ?_, rfl⟩
  · refine ⟨?_, ?_, Nat.succ_pos _, ?_, ?_⟩
    · simp [upd, hwf.objs_null]
    · simp [upd, hwf.holders_null, Ne.symm hwf.next_ne]
    · intro a ha
      have : a ≠ w.next + 1 := Nat.ne_of_gt ha
      simp only [upd, if_neg this]
      exact hwf.objs_fresh a (Nat.le_of_succ_le (Nat.le_of_succ_le ha))
    · intro a ha
      have : a ≠ w.next := Nat.ne_of_gt (Nat.lt_of_succ_lt ha)
      simp only [upd, if_neg this]
      exact hwf.holders_fresh a (Nat.le_of_succ_le (Nat.le_of_succ_le ha))
  · show w.budget - 1 - 1 = w.budget - 2
    omega

/-- Assignment from an external address, through a temporary printer, keeps the printer
tidy. -/
theorem step_addr (base this tmp : Addr) (f0 : List Addr) (wb : Addr) (fs : List Addr)
    (w : World V) (p : Addr) (hne : this ≠ tmp) (ht : TidyAt base this tmp f0 wb fs w)
    (hsrc : SrcOK base this tmp w (.addr p)) (hb : 4 ≤ w.budget) :
    ∃ w1, runAssign this tmp (.addr p) w = .ok () w1 ∧ Tidy base this tmp f0 w1 ∧
      SameOutside base this w w1 ∧ w.budget - 4 ≤ w1.budget := by
  have ht0 := ht
  obtain ⟨hwf, hbase, htmp, hthis, hrel, hHw, hOw, hwbb, hpb, hfr, hnd, hfs⟩ := ht
  obtain ⟨hpl, v, hv⟩ := hsrc
  have hp0 : p ≠ nullptr := hwf.ne_null_of_obj hv
  have hwbn : wb ≠ w.next := Nat.ne_of_lt (hrel.lt_next hwf)
  have hwbn1 : wb ≠ w.next + 1 := Nat.ne_of_lt (Nat.lt_succ_of_lt (hrel.lt_next hwf))
  have hnn1 : w.next ≠ w.next + 1 := Nat.ne_of_lt (Nat.lt_succ_self _)
  -- the temporary is built
  obtain ⟨wa, e1, hwfa, hoa, hha, hpa, hna, hba, hfa⟩ :=
    ctorPtr_eff w tmp p hwf hp0 (by omega)
  have hha_wb : wa.holders wb = w.holders wb := by rw [hha, upd_other _ _ _ _ hwbn]
  have hrela : Releasable wa wb := hrel.congr hha_wb (fun pd _ => by rw [hoa])
  have hspa : Spares wa wb w.next p := by
    refine ⟨hwbn, fun pd hpd h => ?_⟩
    rw [hha_wb] at hpd
    exact absurd (hpb pd hpd).1 (Nat.not_le.mpr (h ▸ hpl))
  -- the assignment proper
  obtain ⟨w2, e2, hwf2, hpr2, hho2, hob2, hfr2, hn2, hbu2, -⟩ :=
    assign_eff wa this tmp wb w.next p false v hwfa hne
      (by rw [hpa, upd_other _ _ _ _ hne]; exact hthis) hrela hspa
      (by rw [hpa]; simp) (by rw [hha]; simp) (by rw [hoa]; exact hv)
      (by rw [hba]; simp; omega)
  have hh2n : w2.holders w.next = some ⟨p, false⟩ := by
    rw [hho2, hna, if_neg hnn1, if_neg (Ne.symm hwbn), hha]; simp
  -- the temporary is destroyed
  obtain ⟨w1, e3, hwf1, hpr1, hho1, hob1, hfr1, hn1, hbu1, -⟩ :=
    dtor_eff w2 tmp w.next hwf2
      (by rw [hpr2, upd_other _ _ _ _ (Ne.symm hne), hpa]; simp)
      (Or.inr ⟨p, false, hh2n, fun h => by cases h⟩)
  have hrun : runAssign this tmp (.addr p) w = .ok () w1 := by
    simp only [runAssign, Printer.assignPtr, e1, Result.bind, e2, e3]
  have hstep := tidy_step base this tmp f0 wb fs w w1 (w.next + 1) p false [w.next] ht0 hwf1
    (Nat.le_succ _) (by rw [hn1, hn2, hna]; simp)
    (by rw [hpr1, upd_other _ _ _ _ hne, hpr2, hna]; simp)
    (by rw [hpr1]; simp)
    (fun a ha hat => by
      rw [hpr1, upd_other _ _ _ _ hat, hpr2, upd_other _ _ _ _ ha, hpa, upd_other _ _ _ _ hat])
    (List.nodup_singleton _)
    (fun a ha => by
      rw [List.mem_singleton] at ha
      subst ha
      exact ⟨Nat.le_refl _, by rw [hn1, hn2, hna]; exact Nat.lt_succ_of_lt (Nat.lt_succ_self _),
        hnn1, fun h => by cases h⟩)
    (fun ho => by cases ho)
    (fun a => by
      rw [hho1 a, hho2 a, hna, hha]
      by_cases h1 : a = w.next
      · subst h1; simp
      · simp [h1, upd])
    (fun a _ => by
      rw [hob1 a, hh2n, hob2 a, hha_wb, hoa]
      by_cases h1 : a = w.next
      · subst h1
        have h2 : w.holders wb ≠ some ⟨w.next, true⟩ := fun h =>
          absurd (hrel.owned_lt hwf h) (Nat.lt_irrefl _)
        simp [h2, hwf.objs_fresh w.next (Nat.le_refl _)]
      · simp [h1])
    (by
      rw [hfr1, hfr2, hfa, released_congr hha_wb]
      simp [released, hh2n])
  refine ⟨w1, hrun, ⟨_, _, hstep.1⟩, hstep.2, ?_⟩
  rw [hbu1, hbu2, hba]
  simp
  omega

/-- Assignment from a value, through a temporary printer, keeps the printer tidy. -/
theorem step_value (base this tmp : Addr) (f0 : List Addr) (wb : Addr) (fs : List Addr)
    (w : World V) (t : Addr) (hne : this ≠ tmp) (ht : TidyAt base this tmp f0 wb fs w)
    (hsrc : SrcOK base this tmp w (.value t)) (hb : 4 ≤ w.budget) :
    ∃ w1, runAssign this tmp (.value t) w = .ok () w1 ∧ Tidy base this tmp f0 w1 ∧
      SameOutside base this w w1 ∧ w.budget - 4 ≤ w1.budget := by
  have ht0 := ht
  obtain ⟨hwf, hbase, htmp, hthis, hrel, hHw, hOw, hwbb, hpb, hfr, hnd, hfs⟩ := ht
  obtain ⟨htl, v, hv⟩ := hsrc
  have hwbl : wb < w.next := hrel.lt_next hwf
  have hwbn : wb ≠ w.next := Nat.ne_of_lt hwbl
  have hwbn2 : wb ≠ w.next + 2 :=
    Nat.ne_of_lt (Nat.lt_succ_of_lt (Nat.lt_succ_of_lt hwbl))
  have hn01 : w.next ≠ w.next + 1 := Nat.ne_of_lt (Nat.lt_succ_self _)
  have hn02 : w.next ≠ w.next + 2 := Nat.ne_of_lt (Nat.lt_succ_of_lt (Nat.lt_succ_self _))
  have hn12 : w.next + 1 ≠ w.next + 2 := Nat.ne_of_lt (Nat.lt_succ_self _)
  have hn13 : w.next + 1 ≠ w.next + 3 := Nat.ne_of_lt (Nat.lt_succ_of_lt (Nat.lt_succ_self _))
  have hn03 : w.next ≠ w.next + 3 :=
    Nat.ne_of_lt (Nat.lt_succ_of_lt (Nat.lt_succ_of_lt (Nat.lt_succ_self _)))
  have hn23 : w.next + 2 ≠ w.next + 3 := Nat.ne_of_lt (Nat.lt_succ_self _)
  have hown : ∀ a, w.next ≤ a → w.holders wb ≠ some ⟨a, true⟩ := fun a ha h =>
    absurd (hrel.owned_lt hwf h) (Nat.not_lt.mpr ha)
  -- the temporary is built
  obtain ⟨wa, e1, hwfa, hoa, hha, hpa, hna, hba, hfa⟩ :=
    ctorRef_eff w tmp t v hwf hv (by omega)
  have hha_wb : wa.holders wb = w.holders wb := by rw [hha, upd_other _ _ _ _ hwbn]
  have hrela : Releasable wa wb := hrel.congr hha_wb (fun pd hpd => by
    have : pd ≠ w.next + 1 := fun h => hown (w.next + 1) (Nat.le_succ _) (by rw [← h]; exact hpd)
    rw [hoa, upd_other _ _ _ _ this])
  have hspa : Spares wa wb w.next (w.next + 1) := by
    refine ⟨hwbn, fun pd hpd h => ?_⟩
    rw [hha_wb] at hpd
    exact hown (w.next + 1) (Nat.le_succ _) (by rw [← h]; exact hpd)
  -- the assignment proper
  obtain ⟨w2, e2, hwf2, hpr2, hho2, hob2, hfr2, hn2, hbu2, -⟩ :=
    assign_eff wa this tmp wb w.next (w.next + 1) true v hwfa hne
      (by rw [hpa, upd_other _ _ _ _ hne]; exact hthis) hrela hspa
      (by rw [hpa]; simp) (by rw [hha]; simp) (by rw [hoa]; simp)
      (by rw [hba]; simp; omega)
  have hn2' : w2.next = w.next + 4 := by rw [hn2, hna]; rfl
  have hh2n : w2.holders w.next = some ⟨w.next + 1, true⟩ := by
    rw [hho2, hna, if_neg hn02, if_neg (Ne.symm hwbn), hha]; simp
  have ho2n : w2.objs (w.next + 1) = some v := by
    rw [hob2, hna, hha_wb, hoa]
    simp [hown (w.next + 1) (Nat.le_succ _)]
  -- the temporary is destroyed
  obtain ⟨w1, e3, hwf1, hpr1, hho1, hob1, hfr1, hn1, hbu1, -⟩ :=
    dtor_eff w2 tmp w.next hwf2
      (by rw [hpr2, upd_other _ _ _ _ (Ne.symm hne), hpa]; simp)
      (Or.inr ⟨w.next + 1, true, hh2n, fun _ => ⟨v, ho2n⟩⟩)
  have hrun : runAssign this tmp (.value t) w = .ok () w1 := by
    simp only [runAssign, Printer.assignValue, e1, Result.bind, e2, e3]
  have hfour : w.next + 2 < w1.next := by
    rw [hn1, hn2']; exact Nat.lt_succ_of_lt (Nat.lt_succ_self _)
  have hstep := tidy_step base this tmp f0 wb fs w w1 (w.next + 2) (w.next + 3) true
    [w.next, w.next + 1] ht0 hwf1
    (Nat.le_succ_of_le (Nat.le_succ _)) hfour
    (by rw [hpr1, upd_other _ _ _ _ hne, hpr2, hna]; simp)
    (by rw [hpr1]; simp)
    (fun a ha hat => by
      rw [hpr1, upd_other _ _ _ _ hat, hpr2, upd_other _ _ _ _ ha, hpa, upd_other _ _ _ _ hat])
    (by simp)
    (fun a ha => by
      simp only [List.mem_cons, List.mem_singleton, List.not_mem_nil, or_false] at ha
      rcases ha with rfl | rfl
      · exact ⟨Nat.le_refl _, Nat.lt_trans (Nat.lt_succ_of_lt (Nat.lt_succ_self _)) hfour,
          hn02, fun _ => hn03⟩
      · exact ⟨Nat.le_succ _, Nat.lt_trans (Nat.lt_succ_self _) hfour, hn12, fun _ => hn13⟩)
    (fun _ => ⟨Nat.le_succ_of_le (Nat.le_succ_of_le (Nat.le_succ _)), Ne.symm hn23, v, by
      rw [hob1, hh2n, hob2, hna]
      simp⟩)
    (fun a => by
      rw [hho1 a, hho2 a, hna, hha]
      by_cases h1 : a = w.next
      · subst h1; simp
      · by_cases h2 : a = w.next + 1
        · subst h2
          simp [upd, hwf.holders_fresh (w.next + 1) (Nat.le_succ _)]
        · simp [h1, h2, upd])
    (fun a hna3 => by
      have h3 : a ≠ w.next + 3 := fun h => hna3 ⟨rfl, h⟩
      rw [hob1 a, hh2n, hob2 a, hna, hha_wb, hoa]
      by_cases h1 : a = w.next
      · subst h1
        have h03 : w.next ≠ w.next + 2 + 1 := hn03
        simp [hown w.next (Nat.le_refl _), upd, hwf.objs_fresh w.next (Nat.le_refl _), h03]
      · by_cases h2 : a = w.next + 1
        · subst h2; simp
        · simp [h1, h2, h3, upd, Ne.symm h2])
    (by
      rw [hfr1, hfr2, hfa, released_congr hha_wb]
      simp [released, hh2n])
  refine ⟨w1, hrun, ⟨_, _, hstep.1⟩, hstep.2, ?_⟩
  rw [hbu1, hbu2, hba]
  simp
  omega

theorem SameOutside.refl (base this : Addr) (w : World V) : SameOutside base this w w :=
  ⟨fun _ _ => rfl, fun _ _ => rfl, fun _ _ => rfl⟩

theorem SameOutside.trans {base this : Addr} {w w1 w2 : World V}
    (h1 : SameOutside base this w w1) (h2 : SameOutside base this w1 w2) :
    SameOutside base this w w2 :=
  ⟨fun a ha => (h2.1 a ha).trans (h1.1 a ha), fun a ha => (h2.2.1 a ha).trans (h1.2.1 a ha),
    fun a ha => (h2.2.2 a ha).trans (h1.2.2 a ha)⟩

theorem SrcOK.mono {base this tmp : Addr} {w w1 : World V} (h : SameOutside base this w w1)
    {src : AssignSrc} (hs : SrcOK base this tmp w src) : SrcOK base this tmp w1 src := by
  cases src with
  | value t =>
    obtain ⟨hl, v, hv⟩ := hs
    exact ⟨hl, v, by rw [h.1 t hl]; exact hv⟩
  | addr p =>
    obtain ⟨hl, v, hv⟩ := hs
    exact ⟨hl, v, by rw [h.1 p hl]; exact hv⟩
  | box s =>
    obtain ⟨h1, h2, hs, ps, os, v, hp, hh, hv, hl1, hl2⟩ := hs
    exact ⟨h1, h2, hs, ps, os, v, by rw [h.2.2 s h1]; exact hp, by rw [h.2.1 hs hl1]; exact hh,
      by rw [h.1 ps hl2]; exact hv, hl1, hl2⟩

/-- One assignment keeps the printer tidy, whatever the source. -/
theorem runAssign_tidy (base this tmp : Addr) (f0 : List Addr) (w : World V) (src : AssignSrc)
    (hne : this ≠ tmp) (ht : Tidy base this tmp f0 w) (hsrc : SrcOK base this tmp w src)
    (hb : 4 ≤ w.budget) :
    ∃ w1, runAssign this tmp src w = .ok () w1 ∧ Tidy base this tmp f0 w1 ∧
      SameOutside base this w w1 ∧ w.budget - 4 ≤ w1.budget := by
  obtain ⟨wb, fs, ht⟩ := ht
  cases src with
  | value t => exact step_value base this tmp f0 wb fs w t hne ht hsrc hb
  | addr p => exact step_addr base this tmp f0 wb fs w p hne ht hsrc hb
  | box s => exact step_box base this tmp f0 wb fs w s hne ht hsrc hb

/-- Any number of assignments keeps the printer tidy. -/
theorem runAssigns_tidy (base this tmp : Addr) (f0 : List Addr) (hne : this ≠ tmp)
    (steps : List AssignSrc) :
    ∀ w : World V, Tidy base this tmp f0 w → (∀ src, src ∈ steps → SrcOK base this tmp w src) →
      4 * steps.length ≤ w.budget →
      ∃ w1, runAssigns this tmp steps w = .ok () w1 ∧ Tidy base this tmp f0 w1 ∧
        SameOutside base this w w1 := by
  induction steps with
  | nil =>
    intro w ht _ _
    exact ⟨w, rfl, ht, SameOutside.refl base this w⟩
  | cons src rest ih =>
    intro w ht hsrc hb
    have hlen : 4 * (rest.length + 1) ≤ w.budget := by simpa using hb
    obtain ⟨w1, h1, ht1, hs1, hb1⟩ :=
      runAssign_tidy base this tmp f0 w src hne ht (hsrc src (List.mem_cons_self _ _))
        (by omega)
    obtain ⟨w2, h2, ht2, hs2⟩ := ih w1 ht1
      (fun s hs => (hsrc s (List.mem_cons_of_mem _ hs)).mono hs1) (by omega)
    exact ⟨w2, by simp only [runAssigns, h1, Result.bind, h2], ht2, hs1.trans hs2⟩

/-- Inside `operator=` the release comes first: the assignment continues from the world
in which `reset()` has emptied the destination. -/
theorem assign_after_reset (w w0 : World V) (d s : Addr) (hr : Printer.reset d w = .ok () w0)
    (hd0 : w0.printers d = some ⟨nullptr⟩) :
    Printer.assign d s w = Printer.assign d s w0 := by
  simp only [Printer.assign, hr, Result.bind, reset_empty w0 d hd0]

theorem World.demo4_tidy : Tidy 6 102 200 [] World.demo4 := by
  refine ⟨nullptr, [], ⟨rfl, rfl, by decide, World.demo2_wf.objs_fresh,
    World.demo2_wf.holders_fresh⟩, by decide, rfl, rfl, Or.inl rfl,
    fun a ha _ => World.demo2_wf.holders_fresh a ha,
    fun a ha _ => World.demo2_wf.objs_fresh a ha,
    fun h => absurd rfl h, ?_, rfl, List.nodup_nil,
    fun a ha => absurd ha (List.not_mem_nil a)⟩
  intro p hp
  have h0 : World.demo4.holders nullptr = none := rfl
  rw [h0] at hp
  cases hp

theorem World.demo4_sources (src : AssignSrc)
    (hs : src ∈ [AssignSrc.value 1, .addr 2, .box 100, .box 101, .value 1]) :
    SrcOK 6 102 200 World.demo4 src := by
  simp only [List.mem_cons, List.mem_singleton, List.not_mem_nil, or_false] at hs
  rcases hs with rfl | rfl | rfl | rfl | rfl
  · exact ⟨by decide, _, rfl⟩
  · exact ⟨by decide, _, rfl⟩
  · exact ⟨by decide, by decide, 3, 4, true, _, rfl, rfl, rfl, by decide, by decide⟩
  · exact ⟨by decide, by decide, 5, 2, false, _, rfl, rfl, rfl, by decide, by decide⟩
  · exact ⟨by decide, _, rfl⟩

theorem mainOps_ptrOK (op : BoxOp Val) (h : op ∈ mainOps) : op.PtrOK := by
  simp only [mainOps, List.mem_cons, List.mem_singleton, List.not_mem_nil, or_false] at h
  rcases h with rfl | rfl | rfl | rfl | rfl | rfl | rfl | rfl | rfl | rfl | rfl
  all_goals first | exact trivial | exact (by decide : (2 : Addr) ≠ nullptr)

end Lemmas

section Claims

variable {V : Type} [Renderable V]

/-- C1: a `Printer` built by `Printer(const T&)` from a live object holding `v` gets a
non-null holder with `_own = true`, nothing is printed by the construction, and `print()`
then appends exactly `text v` followed by a newline, changing nothing else. -/
theorem C1_owned_ctor_print (w : World V) (this t : Addr) (v : V)
    (hwf : w.WF) (ht : w.objs t = some v) (hb : 2 ≤ w.budget) :
    ∃ w1 wb p, Printer.ctorRef this t w = .ok () w1 ∧
      w1.printers this = some ⟨wb⟩ ∧ wb ≠ nullptr ∧ w1.holders wb = some ⟨p, true⟩ ∧
      w1.out = w.out ∧
      Printer.print this w1 = .ok () { w1 with out := w.out ++ Renderable.text v ++ "\n" } := by
  refine ⟨_, w.next, w.next + 1, ctorRef_eq w this t v hwf ht hb, ?_, hwf.next_ne, ?_, ?_, ?_⟩
  · simp
  · simp
  · simp
  · exact print_owned _ this w.next (w.next + 1) v (by simp) hwf.next_ne (by simp)
      (by simp) (by simp)

/-- C1 at `v = 42`: the hypotheses hold in the sample world and the printed text is `42\n`,
also along the path of main.cpp:145-148 (`Printer printer; printer = 42; printer.print();`). -/
theorem C1_owned_ctor_print_witness :
    (∃ w1 wb p, Printer.ctorRef 100 1 World.demo = .ok () w1 ∧
      w1.printers 100 = some ⟨wb⟩ ∧ wb ≠ nullptr ∧ w1.holders wb = some ⟨p, true⟩ ∧
      w1.out = World.demo.out ∧
      Printer.print 100 w1 = .ok () { w1 with out := World.demo.out ++ "42" ++ "\n" }) ∧
    ((Printer.ctorRef 100 1 World.demo).bind fun _ w => Printer.print 100 w).out?
      = some "42\n" ∧
    ((Printer.ctor 100 World.demo).bind fun _ w =>
      (Printer.assignValue 100 200 1 w).bind fun _ w => Printer.print 100 w).out?
      = some "42\n" :=
  ⟨C1_owned_ctor_print World.demo 100 1 (.int 42) World.demo_wf rfl (by decide), by decide,
    by decide⟩

/-- C2: a `Printer` built by `Printer(T*)` from a non-null pointer `p` to a live object
holding `v` gets a non-null holder with `_own = false` and `_ptr = p`, and `print()` then
appends exactly `[`, `text v`, `]` and a newline, changing nothing else. -/
theorem C2_borrowed_ctor_print (w : World V) (this p : Addr) (v : V)
    (hwf : w.WF) (hp : p ≠ nullptr) (hv : w.objs p = some v) (hb : 1 ≤ w.budget) :
    ∃ w1 wb, Printer.ctorPtr this p w = .ok () w1 ∧
      w1.printers this = some ⟨wb⟩ ∧ wb ≠ nullptr ∧ w1.holders wb = some ⟨p, false⟩ ∧
      w1.out = w.out ∧
      Printer.print this w1 =
        .ok () { w1 with out := w.out ++ "[" ++ Renderable.text v ++ "]" ++ "\n" } := by
  refine ⟨_, w.next, ctorPtr_eq w this p hp hb, ?_, hwf.next_ne, ?_, ?_, ?_⟩
  · simp
  · simp
  · simp
  · exact print_borrowed _ this w.next p v (by simp) hwf.next_ne (by simp) hp
      (by simpa using hv)

/-- C2 at a pointer to the `int` 10: the printed text is `[10]\n`. -/
theorem C2_borrowed_ctor_print_witness :
    (∃ w1 wb, Printer.ctorPtr 100 2 World.demo = .ok () w1 ∧
      w1.printers 100 = some ⟨wb⟩ ∧ wb ≠ nullptr ∧ w1.holders wb = some ⟨2, false⟩ ∧
      w1.out = World.demo.out ∧
      Printer.print 100 w1 =
        .ok () { w1 with out := World.demo.out ++ "[" ++ "10" ++ "]" ++ "\n" }) ∧
    ((Printer.ctorPtr 100 2 World.demo).bind fun _ w => Printer.print 100 w).out?
      = some "[10]\n" :=
  ⟨C2_borrowed_ctor_print World.demo 100 2 (.int 10) World.demo_wf (by decide) rfl (by decide),
    by decide⟩

/-- C3: `Printer()` leaves `_wb` null, and `print()` on any printer whose `_wb` is null
returns normally with the whole world, output included, unchanged. -/
theorem C3_empty_print_noop (w : World V) (this : Addr) :
    (∃ w1, Printer.ctor this w = .ok () w1 ∧ w1.printers this = some ⟨nullptr⟩ ∧
      Printer.print this w1 = .ok () w1) ∧
    (∀ w2 : World V, w2.printers this = some ⟨nullptr⟩ → Printer.print this w2 = .ok () w2) := by
  refine ⟨⟨_, rfl, by simp, ?_⟩, fun w2 h => print_empty w2 this h⟩
  exact print_empty _ this (by simp)

/-- C3 on the sample world: the default-constructed printer prints nothing. -/
theorem C3_empty_print_noop_witness :
    ((Printer.ctor 100 World.demo).bind fun _ w => Printer.print 100 w).out? = some "" ∧
    ∃ w1, Printer.ctor 100 World.demo = .ok () w1 ∧ Printer.print 100 w1 = .ok () w1 :=
  ⟨by decide,
    (C3_empty_print_noop World.demo 100).1.elim fun w1 h =>
      ⟨w1, h.1, (C3_empty_print_noop World.demo 100).2 w1 h.2.1⟩⟩

/-- C4: after `Printer(T*)` from `p` the holder stores `p` itself; `print()` shows the value
`a` at `p` in brackets, and after the caller stores `b` at `p` the next `print()` appends
`[`, `text b`, `]` and a newline. -/
theorem C4_borrowed_sees_mutation (w : World V) (this p : Addr) (a b : V)
    (hwf : w.WF) (hp : p ≠ nullptr) (hv : w.objs p = some a) (hb : 1 ≤ w.budget) :
    ∃ w1 wb w2 w3, Printer.ctorPtr this p w = .ok () w1 ∧
      w1.printers this = some ⟨wb⟩ ∧ w1.holders wb = some ⟨p, false⟩ ∧
      Printer.print this w1 = .ok () w2 ∧
      w2.out = w.out ++ "[" ++ Renderable.text a ++ "]" ++ "\n" ∧
      writeObj p b w2 = .ok () w3 ∧
      w3.printers this = some ⟨wb⟩ ∧ w3.holders wb = some ⟨p, false⟩ ∧
      Printer.print this w3 =
        .ok () { w3 with out := w2.out ++ "[" ++ Renderable.text b ++ "]" ++ "\n" } := by
  refine ⟨_, w.next, _, _, ctorPtr_eq w this p hp hb, by simp, by simp,
    print_borrowed _ this w.next p a ?_ hwf.next_ne ?_ hp ?_, ?_,
    writeObj_eq _ p a b hp ?_, ?_, ?_,
    print_borrowed _ this w.next p b ?_ hwf.next_ne ?_ hp ?_⟩ <;> simp [hv]

/-- C4 on the sample world: `x = 10` prints `[10]\n`, and after `x = 20` the same printer
prints `[20]\n`, also along the path of main.cpp:150-155 (`printer = value;`). -/
theorem C4_borrowed_sees_mutation_witness :
    (∃ w1 wb w2 w3, Printer.ctorPtr 100 2 World.demo = .ok () w1 ∧
      w1.printers 100 = some ⟨wb⟩ ∧ w1.holders wb = some ⟨2, false⟩ ∧
      Printer.print 100 w1 = .ok () w2 ∧
      w2.out = World.demo.out ++ "[" ++ "10" ++ "]" ++ "\n" ∧
      writeObj 2 (Val.int 20) w2 = .ok () w3 ∧
      w3.printers 100 = some ⟨wb⟩ ∧ w3.holders wb = some ⟨2, false⟩ ∧
      Printer.print 100 w3 = .ok () { w3 with out := w2.out ++ "[" ++ "20" ++ "]" ++ "\n" }) ∧
    ((Printer.ctorPtr 100 2 World.demo).bind fun _ w =>
      (Printer.print 100 w).bind fun _ w =>
        (writeObj 2 (Val.int 20) w).bind fun _ w => Printer.print 100 w).out?
      = some "[10]\n[20]\n" ∧
    ((Printer.ctor 100 World.demo).bind fun _ w =>
      (Printer.assignPtr 100 200 2 w).bind fun _ w =>
        (Printer.print 100 w).bind fun _ w =>
          (writeObj 2 (Val.int 20) w).bind fun _ w => Printer.print 100 w).out?
      = some "[10]\n[20]\n" :=
  ⟨C4_borrowed_sees_mutation World.demo 100 2 (.int 10) (.int 20) World.demo_wf (by decide) rfl
    (by decide), by decide, by decide⟩

/-- C5: after `Printer(const T&)` from the object at `t` holding `v`, the holder's `_ptr` is
an address that held no object before, differs from `t`, and holds a copy of `v`; whatever
the caller then stores at `t`, in any interleaving with calls to `print()`, every `print()`
appends exactly `text v` and a newline. -/
theorem C5_owned_isolated (w : World V) (this t : Addr) (v : V)
    (hwf : w.WF) (ht : w.objs t = some v) (hb : 2 ≤ w.budget) :
    ∃ w1 wb p, Printer.ctorRef this t w = .ok () w1 ∧
      w1.printers this = some ⟨wb⟩ ∧ w1.holders wb = some ⟨p, true⟩ ∧
      p ≠ t ∧ w.objs p = none ∧ w1.objs p = some v ∧ w1.objs t = some v ∧
      ∀ steps : List (CallerStep V), ∃ w2, runCaller this t steps w1 = .ok () w2 ∧
        w2.out = w.out ++ linesFor (Renderable.text v ++ "\n") steps := by
  have hlt : t < w.next := hwf.lt_of_obj ht
  have hpt : w.next + 1 ≠ t := Nat.ne_of_gt (Nat.lt_succ_of_lt hlt)
  have ht1 : w.objs t = some v → upd w.objs (w.next + 1) (some v) t = some v := by
    intro h
    rw [upd_other _ _ _ _ (Ne.symm hpt)]
    exact h
  refine ⟨_, w.next, w.next + 1, ctorRef_eq w this t v hwf ht hb, by simp, by simp, hpt,
    hwf.objs_fresh _ (Nat.le_succ _), by simp, ht1 ht, ?_⟩
  intro steps
  exact runCaller_owned this t w.next (w.next + 1) v hwf.next_ne (by simp)
    (hwf.ne_null_of_obj ht) hpt steps _ (by simp) (by simp) (by simp) ⟨v, ht1 ht⟩

/-- C5 on the sample world: a printer built from the `int` 42 keeps printing `42\n` after
the original is overwritten with 7 and then with 8. -/
theorem C5_owned_isolated_witness :
    (∃ w1 wb p, Printer.ctorRef 100 1 World.demo = .ok () w1 ∧
      w1.printers 100 = some ⟨wb⟩ ∧ w1.holders wb = some ⟨p, true⟩ ∧
      p ≠ 1 ∧ World.demo.objs p = none ∧ w1.objs p = some (Val.int 42) ∧
      w1.objs 1 = some (Val.int 42) ∧
      ∀ steps : List (CallerStep Val), ∃ w2, runCaller 100 1 steps w1 = .ok () w2 ∧
        w2.out = World.demo.out ++ linesFor ("42" ++ "\n") steps) ∧
    ((Printer.ctorRef 100 1 World.demo).bind fun _ w =>
      runCaller 100 1 [.print, .write (.int 7), .print, .write (.int 8), .print] w).out?
      = some "42\n42\n42\n" :=
  ⟨C5_owned_isolated World.demo 100 1 (.int 42) World.demo_wf rfl (by decide), by decide⟩

/-- C6: in a world where the destination `d` is a live printer whose holder (if any) is
its own (not the source's holder, and its owned storage is not the source's object), and
the distinct source `s` has a live holder `hs` with mode `os` over the live object `ps`
holding `v`: `d = s` returns and `d` then has a non-null holder `hd1` with the same mode
`os`. That holder is a clone: it is another holder object than the source's, at an address
where no holder lived before, and it holds `v`; when `os = true` its storage `pd1` is
another address than the source's, one where no object lived before, and when `os = false`
its address is the source's address. `print()` on `d` and on `s` append the same line, and
the source's printer, holder (mode and address) and held value are unchanged. -/
theorem C6_assign_preserves (w : World V) (d s wd hs ps : Addr) (os : Bool) (v : V)
    (hwf : w.WF) (hds : d ≠ s) (hd : w.printers d = some ⟨wd⟩) (hrel : Releasable w wd)
    (hsp : Spares w wd hs ps) (hsrc : w.printers s = some ⟨hs⟩)
    (hh : w.holders hs = some ⟨ps, os⟩) (hv : w.objs ps = some v) (hb : 2 ≤ w.budget) :
    ∃ w1 hd1 pd1, Printer.assign d s w = .ok () w1 ∧
      w1.printers d = some ⟨hd1⟩ ∧ hd1 ≠ nullptr ∧ w1.holders hd1 = some ⟨pd1, os⟩ ∧
      hd1 ≠ hs ∧ w.holders hd1 = none ∧ w1.objs pd1 = some v ∧
      (os = true → pd1 ≠ ps ∧ w.objs pd1 = none) ∧ (os = false → pd1 = ps) ∧
      Printer.print d w1 = .ok () { w1 with out := (w1.out ++ (if os = true then "" else "[") ++
        Renderable.text v ++ (if os = true then "" else "]") ++ "\n") } ∧
      Printer.print s w1 = .ok () { w1 with out := (w1.out ++ (if os = true then "" else "[") ++
        Renderable.text v ++ (if os = true then "" else "]") ++ "\n") } ∧
      w1.printers s = some ⟨hs⟩ ∧ w1.holders hs = some ⟨ps, os⟩ ∧ w1.objs ps = some v := by
  have hb2 : (if os = true then 2 else 1) ≤ w.budget := by split <;> omega
  obtain ⟨w1, has, hwf1, hpr, hnew, hhold, hobjn, hobj, -, -, -, -⟩ :=
    assign_ok w d s wd hs ps os v hwf hds hd hrel hsp hsrc hh hv hb2
  have hs0 : hs ≠ nullptr := hwf.ne_null_of_holder hh
  have hps0 : ps ≠ nullptr := hwf.ne_null_of_obj hv
  have hsn : hs ≠ w.next := Nat.ne_of_lt (hwf.lt_of_holder hh)
  have hpsn : ps ≠ w.next + 1 := Nat.ne_of_lt (Nat.lt_succ_of_lt (hwf.lt_of_obj hv))
  have hd1 : w1.printers d = some ⟨w.next⟩ := by rw [hpr]; simp
  have hs1 : w1.printers s = some ⟨hs⟩ := by
    rw [hpr, upd_other _ _ _ _ (Ne.symm hds)]; exact hsrc
  have hh1 : w1.holders hs = some ⟨ps, os⟩ := by
    rw [hhold hs (Ne.symm hsp.1) hsn]; exact hh
  have hv1 : w1.objs ps = some v := by
    rw [hobj ps (fun pd hpd => Ne.symm (hsp.2 pd hpd)) (fun _ => hpsn)]; exact hv
  have hvd : w1.objs (if os = true then w.next + 1 else ps) = some v := by
    cases os with
    | false => simpa using hv1
    | true => simpa using hobjn rfl
  have hpd0 : (if os = true then w.next + 1 else ps) ≠ nullptr := by
    split
    · exact Nat.succ_ne_zero _
    · exact hps0
  have hfresh : os = true → (if os = true then w.next + 1 else ps) ≠ ps ∧
      w.objs (if os = true then w.next + 1 else ps) = none := by
    intro ho
    rw [if_pos ho]
    exact ⟨Ne.symm hpsn, hwf.objs_fresh _ (Nat.le_succ _)⟩
  have halias : os = false → (if os = true then w.next + 1 else ps) = ps := by
    intro ho
    rw [if_neg (by rw [ho]; decide)]
  exact ⟨w1, w.next, _, has, hd1, hwf.next_ne, hnew, Ne.symm hsn,
    hwf.holders_fresh _ (Nat.le_refl _), hvd, hfresh, halias,
    print_holder w1 d w.next _ os v hd1 hwf.next_ne hnew hpd0 hvd,
    print_holder w1 s hs ps os v hs1 hs0 hh1 hps0 hv1, hs1, hh1, hv1⟩

/-- C6 on the sample world: assigning the borrowing printer 101 to the owning printer 100
gives 100 the new holder 6 over the same address 2 and makes both print `[10]\n`; assigning
the owning printer 100 to the borrowing printer 101 gives 101 the new holder 6 over the new
storage 7 and makes both print `42\n`. -/
theorem C6_assign_preserves_witness :
    (∃ w1 hd1 pd1, Printer.assign 100 101 World.demo2 = .ok () w1 ∧
      w1.printers 100 = some ⟨hd1⟩ ∧ hd1 ≠ nullptr ∧ w1.holders hd1 = some ⟨pd1, false⟩ ∧
      hd1 ≠ 5 ∧ World.demo2.holders hd1 = none ∧ w1.objs pd1 = some (Val.int 10) ∧
      ((false : Bool) = true → pd1 ≠ 2 ∧ World.demo2.objs pd1 = none) ∧
      ((false : Bool) = false → pd1 = 2) ∧
      Printer.print 100 w1 = .ok () { w1 with out := w1.out ++ "[" ++ "10" ++ "]" ++ "\n" } ∧
      Printer.print 101 w1 = .ok () { w1 with out := w1.out ++ "[" ++ "10" ++ "]" ++ "\n" } ∧
      w1.printers 101 = some ⟨5⟩ ∧ w1.holders 5 = some ⟨2, false⟩ ∧
      w1.objs 2 = some (Val.int 10)) ∧
    (∃ w1 hd1 pd1, Printer.assign 101 100 World.demo2 = .ok () w1 ∧
      w1.printers 101 = some ⟨hd1⟩ ∧ hd1 ≠ nullptr ∧ w1.holders hd1 = some ⟨pd1, true⟩ ∧
      hd1 ≠ 3 ∧ World.demo2.holders hd1 = none ∧ w1.objs pd1 = some (Val.int 42) ∧
      ((true : Bool) = true → pd1 ≠ 4 ∧ World.demo2.objs pd1 = none) ∧
      ((true : Bool) = false → pd1 = 4) ∧
      Printer.print 101 w1 = .ok () { w1 with out := w1.out ++ "" ++ "42" ++ "" ++ "\n" } ∧
      Printer.print 100 w1 = .ok () { w1 with out := w1.out ++ "" ++ "42" ++ "" ++ "\n" } ∧
      w1.printers 100 = some ⟨3⟩ ∧ w1.holders 3 = some ⟨4, true⟩ ∧
      w1.objs 4 = some (Val.int 42)) ∧
    ((Printer.assign 100 101 World.demo2).bind fun _ w =>
      (Printer.print 100 w).bind fun _ w => Printer.print 101 w).out? = some "[10]\n[10]\n" ∧
    ((Printer.assign 101 100 World.demo2).bind fun _ w =>
      (Printer.print 101 w).bind fun _ w => Printer.print 100 w).out? = some "42\n42\n" ∧
    (Printer.assign 100 101 World.demo2).printer? 100 = some ⟨6⟩ ∧
    (Printer.assign 100 101 World.demo2).holder? 6 = some ⟨2, false⟩ ∧
    (Printer.assign 101 100 World.demo2).printer? 101 = some ⟨6⟩ ∧
    (Printer.assign 101 100 World.demo2).holder? 6 = some ⟨7, true⟩ ∧
    (Printer.assign 101 100 World.demo2).holder? 3 = some ⟨4, true⟩ :=
  ⟨C6_assign_preserves World.demo2 100 101 3 5 2 false (.int 10) World.demo2_wf (by decide) rfl
    World.demo2_releasable_owned World.demo2_spares_borrowed rfl rfl rfl (by decide),
    C6_assign_preserves World.demo2 101 100 5 3 4 true (.int 42) World.demo2_wf (by decide) rfl
    World.demo2_releasable_borrowed World.demo2_spares_owned rfl rfl rfl (by decide),
    by decide, by decide, by decide, by decide, by decide, by decide, by decide⟩

/-- C7: `Clone()` of a live holder with `_own = false` and address `p` returns a new holder
with `_own = false` and `_ptr = p`, using one allocation (the holder itself) and leaving the
object store untouched; and after `d = s` with such a source, once the caller stores `b`
at `p`, `print()` on `d` and on `s` both append `[`, `text b`, `]` and a newline. -/
theorem C7_borrowed_clone_aliases (w : World V) (d s wd hs p : Addr) (a b : V)
    (hwf : w.WF) (hds : d ≠ s) (hd : w.printers d = some ⟨wd⟩) (hrel : Releasable w wd)
    (hsp : Spares w wd hs p) (hsrc : w.printers s = some ⟨hs⟩)
    (hh : w.holders hs = some ⟨p, false⟩) (hv : w.objs p = some a) (hb : 1 ≤ w.budget) :
    (∃ c wc, Writable.Clone hs w = .ok c wc ∧ c ≠ hs ∧ c ≠ nullptr ∧
      wc.holders c = some ⟨p, false⟩ ∧ wc.holders hs = some ⟨p, false⟩ ∧
      wc.objs = w.objs ∧ wc.next = w.next + 1 ∧ wc.budget = w.budget - 1) ∧
    (∃ w1 w2, Printer.assign d s w = .ok () w1 ∧ writeObj p b w1 = .ok () w2 ∧
      Printer.print d w2 =
        .ok () { w2 with out := w2.out ++ "[" ++ Renderable.text b ++ "]" ++ "\n" } ∧
      Printer.print s w2 =
        .ok () { w2 with out := w2.out ++ "[" ++ Renderable.text b ++ "]" ++ "\n" }) := by
  have hs0 : hs ≠ nullptr := hwf.ne_null_of_holder hh
  have hp0 : p ≠ nullptr := hwf.ne_null_of_obj hv
  have hsn : hs ≠ w.next := Nat.ne_of_lt (hwf.lt_of_holder hh)
  have hb0 : w.budget ≠ 0 := by omega
  constructor
  · have hc := (Clone_eq w hs p false hs0 hp0 hh).trans (newWritable_borrowed w p hb0)
    refine ⟨w.next, _, hc, Ne.symm hsn, hwf.next_ne, ?_, ?_, rfl, rfl, rfl⟩
    · simp
    · simp [upd, hsn, hh]
  · obtain ⟨w1, has, hwf1, hpr, hnew, hhold, -, hobj, -, -, -, -⟩ :=
      assign_ok w d s wd hs p false a hwf hds hd hrel hsp hsrc hh hv (by simpa using hb)
    have hd1 : w1.printers d = some ⟨w.next⟩ := by rw [hpr]; simp
    have hs1 : w1.printers s = some ⟨hs⟩ := by
      rw [hpr, upd_other _ _ _ _ (Ne.symm hds)]; exact hsrc
    have hh1 : w1.holders hs = some ⟨p, false⟩ := by
      rw [hhold hs (Ne.symm hsp.1) hsn]; exact hh
    have hv1 : w1.objs p = some a := by
      rw [hobj p (fun pd hpd => Ne.symm (hsp.2 pd hpd)) (fun h => by cases h)]; exact hv
    have hnew1 : w1.holders w.next = some ⟨p, false⟩ := by simpa using hnew
    exact ⟨w1, _, has, writeObj_eq w1 p a b hp0 hv1,
      print_borrowed _ d w.next p b hd1 hwf.next_ne hnew1 hp0 (by simp),
      print_borrowed _ s hs p b hs1 hs0 hh1 hp0 (by simp)⟩

/-- C7 on the sample world: after `d = s` with the borrowing printer 101 as source, storing
20 at the borrowed address makes both printers print `[20]\n`. -/
theorem C7_borrowed_clone_aliases_witness :
    ((∃ c wc, Writable.Clone 5 World.demo2 = .ok c wc ∧ c ≠ 5 ∧ c ≠ nullptr ∧
      wc.holders c = some ⟨2, false⟩ ∧ wc.holders 5 = some ⟨2, false⟩ ∧
      wc.objs = World.demo2.objs ∧ wc.next = World.demo2.next + 1 ∧
      wc.budget = World.demo2.budget - 1) ∧
    (∃ w1 w2, Printer.assign 100 101 World.demo2 = .ok () w1 ∧
      writeObj 2 (Val.int 20) w1 = .ok () w2 ∧
      Printer.print 100 w2 = .ok () { w2 with out := w2.out ++ "[" ++ "20" ++ "]" ++ "\n" } ∧
      Printer.print 101 w2 = .ok () { w2 with out := w2.out ++ "[" ++ "20" ++ "]" ++ "\n" })) ∧
    ((Printer.assign 100 101 World.demo2).bind fun _ w =>
      (writeObj 2 (Val.int 20) w).bind fun _ w =>
        (Printer.print 100 w).bind fun _ w => Printer.print 101 w).out? = some "[20]\n[20]\n" :=
  ⟨C7_borrowed_clone_aliases World.demo2 100 101 3 5 2 (.int 10) (.int 20) World.demo2_wf
    (by decide) rfl World.demo2_releasable_owned World.demo2_spares_borrowed rfl rfl rfl
    (by decide), by decide⟩

/-- C8: `Clone()` of a live holder with `_own = true` over the object `ps` holding `v`
returns a new holder with `_own = true` whose `_ptr` is an address that held no object
before, differs from `ps`, and holds `v`; and after `d = s` with such a source, destroying
`s` or reassigning `s` from any other printer `r` releases the object `ps` but leaves the
storage of `d` live with `v` in it, and `print()` on `d` still appends `text v` and a
newline. -/
theorem C8_owned_clone_independent (w : World V) (d s wd hs ps : Addr) (v : V)
    (hwf : w.WF) (hds : d ≠ s) (hd : w.printers d = some ⟨wd⟩) (hrel : Releasable w wd)
    (hsp : Spares w wd hs ps) (hsrc : w.printers s = some ⟨hs⟩)
    (hh : w.holders hs = some ⟨ps, true⟩) (hv : w.objs ps = some v) (hb : 4 ≤ w.budget) :
    (∃ c wc pc, Writable.Clone hs w = .ok c wc ∧ c ≠ hs ∧ wc.holders c = some ⟨pc, true⟩ ∧
      pc ≠ ps ∧ w.objs pc = none ∧ wc.objs pc = some v ∧
      wc.holders hs = some ⟨ps, true⟩ ∧ wc.objs ps = some v) ∧
    (∃ w1 hd1 pd1, Printer.assign d s w = .ok () w1 ∧ w1.printers d = some ⟨hd1⟩ ∧
      w1.holders hd1 = some ⟨pd1, true⟩ ∧ pd1 ≠ ps ∧ w1.objs pd1 = some v ∧
      (∃ w2, Printer.dtor s w1 = .ok () w2 ∧ w2.objs ps = none ∧ w2.objs pd1 = some v ∧
        Printer.print d w2 = .ok () { w2 with out := w2.out ++ Renderable.text v ++ "\n" }) ∧
      (∀ (r hr pr : Addr) (om : Bool) (u : V), r ≠ s → w1.printers r = some ⟨hr⟩ →
        w1.holders hr = some ⟨pr, om⟩ → w1.objs pr = some u → hr ≠ hs → pr ≠ ps →
        ∃ w2, Printer.assign s r w1 = .ok () w2 ∧ w2.objs ps = none ∧
          w2.objs pd1 = some v ∧
          Printer.print d w2 =
            .ok () { w2 with out := w2.out ++ Renderable.text v ++ "\n" })) := by
  have hs0 : hs ≠ nullptr := hwf.ne_null_of_holder hh
  have hps0 : ps ≠ nullptr := hwf.ne_null_of_obj hv
  have hsn : hs ≠ w.next := Nat.ne_of_lt (hwf.lt_of_holder hh)
  have hpsn : ps ≠ w.next + 1 := Nat.ne_of_lt (Nat.lt_succ_of_lt (hwf.lt_of_obj hv))
  have hn1 : w.next + 1 ≠ nullptr := Nat.succ_ne_zero _
  constructor
  · have hc := (Clone_eq w hs ps true hs0 hps0 hh).trans
      (newWritable_owned w ps v hwf hv (by omega))
    refine ⟨w.next, _, w.next + 1, hc, Ne.symm hsn, by simp, Ne.symm hpsn,
      hwf.objs_fresh _ (Nat.le_succ _), by simp, ?_, ?_⟩
    · simp [upd, hsn, hh]
    · simp [upd, hpsn, hv]
  · obtain ⟨w1, has, hwf1, hpr, hnew, hhold, hobjn, hobj, -, hbud, -, -⟩ :=
      assign_ok w d s wd hs ps true v hwf hds hd hrel hsp hsrc hh hv (by simp; omega)
    have hd1 : w1.printers d = some ⟨w.next⟩ := by rw [hpr]; simp
    have hs1 : w1.printers s = some ⟨hs⟩ := by
      rw [hpr, upd_other _ _ _ _ (Ne.symm hds)]; exact hsrc
    have hh1 : w1.holders hs = some ⟨ps, true⟩ := by
      rw [hhold hs (Ne.symm hsp.1) hsn]; exact hh
    have hv1 : w1.objs ps = some v := by
      rw [hobj ps (fun pd hpd => Ne.symm (hsp.2 pd hpd)) (fun _ => hpsn)]; exact hv
    have hnew1 : w1.holders w.next = some ⟨w.next + 1, true⟩ := by simpa using hnew
    have hvd1 : w1.objs (w.next + 1) = some v := hobjn rfl
    have hrel1 : Releasable w1 hs := Or.inr ⟨ps, true, hh1, fun _ => ⟨v, hv1⟩⟩
    have hkeep : ∀ pd, w1.holders hs = some ⟨pd, true⟩ → w.next + 1 ≠ pd := by
      intro pd hpd
      rw [hh1] at hpd
      cases hpd
      exact Ne.symm hpsn
    refine ⟨w1, w.next, w.next + 1, has, hd1, hnew1, Ne.symm hpsn, hvd1, ?_, ?_⟩
    · obtain ⟨w2, hr2, -, hpr2, hho2, -, hob2, hod2, -, -, -⟩ := reset_ok w1 s hs hwf1 hs1 hrel1
      have hvd2 : w2.objs (w.next + 1) = some v := by rw [hob2 _ hkeep]; exact hvd1
      refine ⟨{ w2 with printers := upd w2.printers s none }, ?_, hod2 ps hh1, hvd2, ?_⟩
      · simp only [Printer.dtor, hr2, Result.bind]
      · refine print_owned _ d w.next (w.next + 1) v ?_ hwf.next_ne ?_ hn1 hvd2
        · simp only [hpr2, upd_upd_same]
          rw [upd_other _ _ _ _ hds]
          exact hd1
        · show w2.holders w.next = _
          rw [hho2 _ (Ne.symm hsn)]
          exact hnew1
    · intro r hr pr om u hrs hr1 hhr hu hne hpne
      have hbr : (if om = true then 2 else 1) ≤ w1.budget := by split <;> omega
      obtain ⟨w2, has2, -, hpr2, -, hhold2, -, hobj2, -, -, -, hfree2⟩ :=
        assign_ok w1 s r hs hr pr om u hwf1 (Ne.symm hrs) hs1 hrel1
          ⟨Ne.symm hne, fun pd hpd => by rw [hh1] at hpd; cases hpd; exact Ne.symm hpne⟩
          hr1 hhr hu hbr
      have hlt1 : w.next < w1.next := hwf1.lt_of_holder hnew1
      have hlt2 : w.next + 1 < w1.next := hwf1.lt_of_obj hvd1
      have hvd2 : w2.objs (w.next + 1) = some v := by
        rw [hobj2 _ hkeep (fun _ => Nat.ne_of_lt (Nat.lt_succ_of_lt hlt2))]
        exact hvd1
      refine ⟨w2, has2, hfree2 ps hh1, hvd2, ?_⟩
      refine print_owned _ d w.next (w.next + 1) v ?_ hwf.next_ne ?_ hn1 hvd2
      · rw [hpr2, upd_other _ _ _ _ hds]
        exact hd1
      · rw [hhold2 _ (Ne.symm hsn) (Nat.ne_of_lt hlt1)]
        exact hnew1

/-- C8 on the sample world: after `d = s` with the owning printer 100 as source, destroying
the source, or reassigning it from the destination, leaves the destination printing `42\n`. -/
theorem C8_owned_clone_independent_witness :
    ((∃ c wc pc, Writable.Clone 3 World.demo2 = .ok c wc ∧ c ≠ 3 ∧
      wc.holders c = some ⟨pc, true⟩ ∧ pc ≠ 4 ∧ World.demo2.objs pc = none ∧
      wc.objs pc = some (Val.int 42) ∧ wc.holders 3 = some ⟨4, true⟩ ∧
      wc.objs 4 = some (Val.int 42)) ∧
    (∃ w1 hd1 pd1, Printer.assign 101 100 World.demo2 = .ok () w1 ∧
      w1.printers 101 = some ⟨hd1⟩ ∧ w1.holders hd1 = some ⟨pd1, true⟩ ∧ pd1 ≠ 4 ∧
      w1.objs pd1 = some (Val.int 42) ∧
      (∃ w2, Printer.dtor 100 w1 = .ok () w2 ∧ w2.objs 4 = none ∧
        w2.objs pd1 = some (Val.int 42) ∧
        Printer.print 101 w2 = .ok () { w2 with out := w2.out ++ "42" ++ "\n" }) ∧
      (∀ (r hr pr : Addr) (om : Bool) (u : Val), r ≠ 100 → w1.printers r = some ⟨hr⟩ →
        w1.holders hr = some ⟨pr, om⟩ → w1.objs pr = some u → hr ≠ 3 → pr ≠ 4 →
        ∃ w2, Printer.assign 100 r w1 = .ok () w2 ∧ w2.objs 4 = none ∧
          w2.objs pd1 = some (Val.int 42) ∧
          Printer.print 101 w2 = .ok () { w2 with out := w2.out ++ "42" ++ "\n" }))) ∧
    ((Printer.assign 101 100 World.demo2).bind fun _ w =>
      (Printer.dtor 100 w).bind fun _ w => Printer.print 101 w).out? = some "42\n" ∧
    ((Printer.assign 101 100 World.demo2).bind fun _ w =>
      (Printer.assign 100 101 w).bind fun _ w => Printer.print 101 w).out? = some "42\n" :=
  ⟨C8_owned_clone_independent World.demo2 101 100 5 3 4 (.int 42) World.demo2_wf (by decide)
    rfl World.demo2_releasable_borrowed World.demo2_spares_owned rfl rfl rfl (by decide),
    by decide, by decide⟩

/-- C9 (the code violates the claim): `d = s` with a default-constructed source `s` never
completes. For every world and every `d`, `s`, running `Printer()` at `s` and then `d = s`
ends in undefined behaviour; on the sample world, with allocations available and `d` a
printer that owns 42, the fault is the null dereference `other._wb->Clone()`. -/
theorem C9_assign_from_empty_faults :
    (∀ (V : Type) (w : World V) (d s : Addr),
      ∃ f, ((Printer.ctor s w).bind fun _ w1 => Printer.assign d s w1) = .ub f) ∧
    ((Printer.ctor 102 World.demo2).bind fun _ w => Printer.assign 100 102 w).fault?
      = some .nullDeref ∧
    ((Printer.ctor 102 World.demo2).bind fun _ w =>
      (Printer.ctor 103 w).bind fun _ w => Printer.assign 103 102 w).fault?
      = some .nullDeref := by
  refine ⟨fun V w d s => ?_, by decide, by decide⟩
  simp only [Printer.ctor, Result.bind]
  apply assign_null_source
  intro w1 h1
  rcases reset_cases { w with printers := upd w.printers s (some ⟨nullptr⟩) } d with
    ⟨f, hf⟩ | ⟨w2, h2, hd2, hfr⟩
  · rw [hf] at h1
    cases h1
  · rw [h2] at h1
    cases h1
    by_cases hsd : s = d
    · subst hsd
      exact hd2
    · rw [hfr s hsd]
      simp

/-- C10 (the code violates the claim): self-assignment never completes. For every world and
every printer `b`, `b = b` ends in undefined behaviour; on the sample world, for the printer
that owns 42 and for the printer that borrows 10, `reset()` releases the holder and the fault
is the null dereference `other._wb->Clone()`. -/
theorem C10_self_assign_faults :
    (∀ (V : Type) (w : World V) (b : Addr), ∃ f, Printer.assign b b w = .ub f) ∧
    (Printer.assign 100 100 World.demo2).fault? = some .nullDeref ∧
    (Printer.assign 101 101 World.demo2).fault? = some .nullDeref := by
  refine ⟨fun V w b => ?_, by decide, by decide⟩
  apply assign_null_source
  intro w1 h1
  rcases reset_cases w b with ⟨f, hf⟩ | ⟨w2, h2, hd2, -⟩
  · rw [hf] at h1
    cases h1
  · rw [h2] at h1
    cases h1
    exact hd2

/-- C11 (amended): when the allocation in `Clone()` fails during `d = s` (no allocation left,
or for a source with `_own = true` only the one for the holder object), `std::bad_alloc`
leaves `operator=` after `reset()` has run: the destination's `_wb` is null, its previous
holder is released (its storage freed when owned), no new holder or object stays allocated,
and the source printer, its holder and its object are unchanged. A destination that was
empty is still empty. -/
theorem C11_assign_failure_leaves_empty {W : Type} (w : World W) (d s wd hs ps : Addr)
    (os : Bool) (v : W)
    (hwf : w.WF) (hds : d ≠ s) (hd : w.printers d = some ⟨wd⟩) (hrel : Releasable w wd)
    (hsp : Spares w wd hs ps) (hsrc : w.printers s = some ⟨hs⟩)
    (hh : w.holders hs = some ⟨ps, os⟩) (hv : w.objs ps = some v)
    (hb : w.budget < (if os = true then 2 else 1)) :
    ∃ w1, Printer.assign d s w = .badAlloc w1 ∧
      w1.printers d = some ⟨nullptr⟩ ∧
      (∀ a, a ≠ d → w1.printers a = w.printers a) ∧
      (∀ a, w1.holders a = if a = wd then none else w.holders a) ∧
      (∀ a, w1.objs a = if w.holders wd = some ⟨a, true⟩ then none else w.objs a) ∧
      w1.freed = released w wd ++ w.freed ∧
      w1.printers s = some ⟨hs⟩ ∧ w1.holders hs = some ⟨ps, os⟩ ∧ w1.objs ps = some v := by
  obtain ⟨w0, hr, hwf0, hpr0, hho0, hob0, hfr0, hn0, hb0, -⟩ := reset_eff w d wd hwf hd hrel
  have hs0 : hs ≠ nullptr := hwf.ne_null_of_holder hh
  have hps0 : ps ≠ nullptr := hwf.ne_null_of_obj hv
  have hsrc0 : w0.printers s = some ⟨hs⟩ := by
    rw [hpr0, upd_other _ _ _ _ (Ne.symm hds)]; exact hsrc
  have hd0 : w0.printers d = some ⟨nullptr⟩ := by rw [hpr0]; simp
  have hh0 : w0.holders hs = some ⟨ps, os⟩ := by
    rw [hho0 hs, if_neg (Ne.symm hsp.1)]; exact hh
  have hv0 : w0.objs ps = some v := by
    rw [hob0 ps, if_neg (fun h => hsp.2 ps h rfl)]; exact hv
  have hfr : ∀ a, a ≠ d → w0.printers a = w.printers a := by
    intro a ha
    rw [hpr0, upd_other _ _ _ _ ha]
  have hstep : Printer.assign d s w =
      (newWritable ps os w0).bind fun c w => setWb d c w := by
    simp only [Printer.assign, hr, Result.bind, getPrinter, hsrc0,
      Clone_eq w0 hs ps os hs0 hps0 hh0]
  by_cases hz : w.budget = 0
  · rw [newWritable_fail_first w0 ps os (by rw [hb0]; exact hz)] at hstep
    exact ⟨w0, hstep, hd0, hfr, hho0, hob0, hfr0, hsrc0, hh0, hv0⟩
  · have hos : os = true := by
      cases os with
      | false => simp at hb; exact absurd hb hz
      | true => rfl
    subst hos
    have hb1 : w0.budget = 1 := by
      have : w.budget < 2 := by simpa using hb
      omega
    rw [newWritable_fail_second w0 ps v hwf0 hv0 hb1] at hstep
    refine ⟨_, hstep, hd0, hfr, ?_, hob0, hfr0, hsrc0, ?_, hv0⟩
    · intro a
      by_cases ha : a = w0.next
      · have hnone : w.holders a = none := hwf.holders_fresh a (by rw [ha, hn0])
        simp [ha, upd]
        rw [← ha, hnone]
        simp
      · simp [upd, ha, hho0 a]
    · have hsn : hs ≠ w0.next := Nat.ne_of_lt (hwf0.lt_of_holder hh0)
      simp [upd, hsn, hh0]

/-- C11 (amended) on the sample world with no allocation left: `d = s` for the owning
printer 100 and the borrowing printer 101 throws and leaves 100 empty. -/
theorem C11_assign_failure_leaves_empty_witness :
    ∃ w1, Printer.assign 100 101 { World.demo2 with budget := 0 } = .badAlloc w1 ∧
      w1.printers 100 = some ⟨nullptr⟩ ∧
      (∀ a, a ≠ 100 → w1.printers a = World.demo2.printers a) ∧
      (∀ a, w1.holders a = if a = 3 then none else World.demo2.holders a) ∧
      (∀ a, w1.objs a =
        if World.demo2.holders 3 = some ⟨a, true⟩ then none else World.demo2.objs a) ∧
      w1.freed = released World.demo2 3 ++ World.demo2.freed ∧
      w1.printers 101 = some ⟨5⟩ ∧ w1.holders 5 = some ⟨2, false⟩ ∧
      w1.objs 2 = some (Val.int 10) :=
  C11_assign_failure_leaves_empty { World.demo2 with budget := 0 } 100 101 3 5 2 false (.int 10)
    ⟨rfl, rfl, by decide, World.demo2_wf.objs_fresh, World.demo2_wf.holders_fresh⟩
    (by decide) rfl World.demo2_releasable_owned World.demo2_spares_borrowed rfl rfl rfl
    (by decide)

/-- C11 as stated fails: on the sample world with no allocation left, `d = s` for the
printer 100 (which owns 42 through holder 3) throws `std::bad_alloc` and the destination
no longer holds the holder it held before: `_wb` is null and holder 3 and its storage 4 are
freed. The same happens when only the second allocation (the copy of the value, source 100
owned, destination 101) fails. -/
theorem C11_assign_atomic_counterexample :
    (∃ w1, Printer.assign 100 101 { World.demo2 with budget := 0 } = .badAlloc w1 ∧
      World.demo2.printers 100 = some ⟨3⟩ ∧ w1.printers 100 ≠ some ⟨3⟩ ∧
      w1.printers 100 = some ⟨nullptr⟩ ∧ w1.holders 3 = none ∧ w1.objs 4 = none) ∧
    (∃ w1, Printer.assign 101 100 { World.demo2 with budget := 1 } = .badAlloc w1 ∧
      World.demo2.printers 101 = some ⟨5⟩ ∧ w1.printers 101 ≠ some ⟨5⟩ ∧
      w1.printers 101 = some ⟨nullptr⟩ ∧ w1.holders 5 = none) :=
  ⟨⟨_, rfl, rfl, by decide, rfl, rfl, rfl⟩, ⟨_, rfl, rfl, by decide, rfl, rfl⟩⟩

/-- C12: let the printer `this` be tidy relative to `base` (everything it allocates lies at
or above `base`), and let each of the `N` assignments take its source from a live object,
a live external address, or another live printer with a holder, all below `base`, with 4
allocations available per assignment. Then the whole sequence returns; afterwards the only
live holder at or above `base` is the printer's current holder and the only live object at
or above `base` is the storage that holder owns (none when it does not own); the addresses
freed by the sequence are pairwise distinct and all at or above `base`; and nothing below
`base` and no other printer has changed. Moreover inside each `operator=` on a printer with
an owning holder the release comes first: `reset()` returns a world in which the holder and
its storage are freed, the destination is empty and nothing has been allocated yet, and the
assignment continues from that world. -/
theorem C12_reassign_no_leak {W : Type} (base this tmp : Addr) (f0 : List Addr)
    (steps : List AssignSrc) (w : World W)
    (hne : this ≠ tmp) (ht : Tidy base this tmp f0 w)
    (hsrc : ∀ src, src ∈ steps → SrcOK base this tmp w src)
    (hb : 4 * steps.length ≤ w.budget) :
    (∃ w1 wb fs, runAssigns this tmp steps w = .ok () w1 ∧
      w1.printers this = some ⟨wb⟩ ∧
      (∀ a, base ≤ a → a ≠ wb → w1.holders a = none) ∧
      (∀ a, base ≤ a → w1.holders wb ≠ some ⟨a, true⟩ → w1.objs a = none) ∧
      w1.freed = fs ++ f0 ∧ fs.Nodup ∧ (∀ a, a ∈ fs → base ≤ a) ∧
      Tidy base this tmp f0 w1 ∧ SameOutside base this w w1) ∧
    (∀ (x : World W) (d s wd pd : Addr) (u : W), x.WF → x.printers d = some ⟨wd⟩ →
      x.holders wd = some ⟨pd, true⟩ → x.objs pd = some u →
      ∃ x0, Printer.reset d x = .ok () x0 ∧ x0.printers d = some ⟨nullptr⟩ ∧
        x0.holders wd = none ∧ x0.objs pd = none ∧ x0.freed = wd :: pd :: x.freed ∧
        x0.next = x.next ∧ Printer.assign d s x = Printer.assign d s x0) := by
  constructor
  · obtain ⟨w1, hrun, ht1, hso⟩ := runAssigns_tidy base this tmp f0 hne steps w ht hsrc hb
    have ht1' := ht1
    obtain ⟨wb, fs, -, -, -, hthis, -, hH, hO, -, -, hfr, hnd, hfs⟩ := ht1'
    exact ⟨w1, wb, fs, hrun, hthis, hH, hO, hfr, hnd, fun a ha => (hfs a ha).1, ht1, hso⟩
  · intro x d s wd pd u hwf hd hh hu
    obtain ⟨x0, hr, -, hpr, hho, hob, hfr, hn, -, -⟩ :=
      reset_eff x d wd hwf hd (Or.inr ⟨pd, true, hh, fun _ => ⟨u, hu⟩⟩)
    have hd0 : x0.printers d = some ⟨nullptr⟩ := by rw [hpr]; simp
    exact ⟨x0, hr, hd0, by simp [hho wd], by simp [hob pd, hh], by simp [hfr, released, hh], hn,
      assign_after_reset x x0 d s hr hd0⟩

/-- C12 on the sample world: five assignments to the default-constructed printer 102 (from
the value 42, the address of 10, the owning printer 100, the borrowing printer 101, and 42
again) free eleven distinct addresses, all allocated by the sequence, and leave only the
holder 17 and its storage. -/
theorem C12_reassign_no_leak_witness :
    (∃ w1 wb fs,
      runAssigns 102 200 [.value 1, .addr 2, .box 100, .box 101, .value 1] World.demo4
        = .ok () w1 ∧
      w1.printers 102 = some ⟨wb⟩ ∧
      (∀ a, 6 ≤ a → a ≠ wb → w1.holders a = none) ∧
      (∀ a, 6 ≤ a → w1.holders wb ≠ some ⟨a, true⟩ → w1.objs a = none) ∧
      w1.freed = fs ++ [] ∧ fs.Nodup ∧ (∀ a, a ∈ fs → 6 ≤ a) ∧
      Tidy 6 102 200 [] w1 ∧ SameOutside 6 102 World.demo4 w1) ∧
    (runAssigns 102 200 [.value 1, .addr 2, .box 100, .box 101, .value 1] World.demo4).freed?
      = some [15, 16, 14, 12, 13, 11, 10, 8, 9, 6, 7] ∧
    (runAssigns 102 200 [.value 1, .addr 2, .box 100, .box 101, .value 1]
      World.demo4).printer? 102 = some ⟨17⟩ ∧
    (runAssigns 102 200 [.value 1, .addr 2, .box 100, .box 101, .value 1]
      World.demo4).holder? 17 = some ⟨18, true⟩ ∧
    (∃ x0, Printer.reset 100 World.demo2 = .ok () x0 ∧ x0.printers 100 = some ⟨nullptr⟩ ∧
      x0.holders 3 = none ∧ x0.objs 4 = none ∧ x0.freed = 3 :: 4 :: World.demo2.freed ∧
      x0.next = World.demo2.next ∧
      Printer.assign 100 101 World.demo2 = Printer.assign 100 101 x0) :=
  ⟨(C12_reassign_no_leak 6 102 200 [] [.value 1, .addr 2, .box 100, .box 101, .value 1]
      World.demo4 (by decide) World.demo4_tidy World.demo4_sources (by decide)).1,
    by decide, by decide, by decide,
    (C12_reassign_no_leak 6 102 200 [] [.value 1, .addr 2, .box 100, .box 101, .value 1]
      World.demo4 (by decide) World.demo4_tidy World.demo4_sources (by decide)).2
      World.demo2 100 101 3 4 (.int 42) World.demo2_wf rfl rfl rfl⟩

/-- C13: let the printer `d` hold the live holder `wd` with mode `od` over the live object at
`pd`. Destroying `d`, and reassigning `d` from any other printer `s` with a holder, both
end the holder `wd`. When `od = false` no object is freed: the object store below the
allocation frontier is unchanged, the object at `pd` still holds its value, and the only
address passed to `delete` is the holder object `wd`. When `od = true` the object at `pd`
is freed and no other: the addresses passed to `delete` are `pd` and the holder object `wd`. -/
theorem C13_release_frees {W : Type} (w : World W) (d wd pd : Addr) (od : Bool) (u : W)
    (hwf : w.WF) (hd : w.printers d = some ⟨wd⟩) (hh : w.holders wd = some ⟨pd, od⟩)
    (hu : w.objs pd = some u) :
    (∃ w1, Printer.dtor d w = .ok () w1 ∧ w1.holders wd = none ∧
      (od = false → w1.objs = w.objs ∧ w1.objs pd = some u ∧ w1.freed = wd :: w.freed) ∧
      (od = true → w1.objs = upd w.objs pd none ∧ w1.freed = wd :: pd :: w.freed)) ∧
    (∀ (s hs ps : Addr) (os : Bool) (v : W), d ≠ s → w.printers s = some ⟨hs⟩ →
      w.holders hs = some ⟨ps, os⟩ → w.objs ps = some v → hs ≠ wd → (od = true → ps ≠ pd) →
      2 ≤ w.budget →
      ∃ w1, Printer.assign d s w = .ok () w1 ∧ w1.holders wd = none ∧
        (od = false → (∀ a, a < w.next → w1.objs a = w.objs a) ∧ w1.objs pd = some u ∧
          w1.freed = wd :: w.freed) ∧
        (od = true → w1.objs pd = none ∧
          (∀ a, a < w.next → a ≠ pd → w1.objs a = w.objs a) ∧
          w1.freed = wd :: pd :: w.freed)) := by
  have hrel : Releasable w wd := Or.inr ⟨pd, od, hh, fun _ => ⟨u, hu⟩⟩
  have hwdn : wd ≠ w.next := Nat.ne_of_lt (hwf.lt_of_holder hh)
  constructor
  · obtain ⟨w1, hr, -, -, hho, hob, hfr, -, -, -⟩ := dtor_eff w d wd hwf hd hrel
    refine ⟨w1, hr, by simp [hho wd], ?_, ?_⟩
    · intro ho
      subst ho
      refine ⟨?_, ?_, ?_⟩
      · funext a; simp [hob a, hh]
      · simp [hob pd, hh, hu]
      · simp [hfr, released, hh]
    · intro ho
      subst ho
      refine ⟨?_, ?_⟩
      · funext a
        by_cases ha : a = pd
        · subst ha; simp [hob a, hh]
        · simp [hob a, hh, upd, ha, Ne.symm ha]
      · simp [hfr, released, hh]
  · intro s hs ps os v hds hsrc hhs hv hne hpne hb
    have hb2 : (if os = true then 2 else 1) ≤ w.budget := by split <;> omega
    have hsp : Spares w wd hs ps := by
      refine ⟨Ne.symm hne, fun p hp => ?_⟩
      rw [hh] at hp
      cases hp
      exact Ne.symm (hpne rfl)
    obtain ⟨w1, hr, -, -, hho, hob, hfr, -, -, -⟩ :=
      assign_eff w d s wd hs ps os v hwf hds hd hrel hsp hsrc hhs hv hb2
    refine ⟨w1, hr, by simp [hho wd, hwdn], ?_, ?_⟩
    · intro ho
      subst ho
      have hframe : ∀ a, a < w.next → w1.objs a = w.objs a := by
        intro a ha
        have h1 : a ≠ w.next + 1 := Nat.ne_of_lt (Nat.lt_succ_of_lt ha)
        simp [hob a, hh, h1]
      exact ⟨hframe, by rw [hframe pd (hwf.lt_of_obj hu)]; exact hu,
        by simp [hfr, released, hh]⟩
    · intro ho
      subst ho
      refine ⟨?_, ?_, by simp [hfr, released, hh]⟩
      · have h1 : pd ≠ w.next + 1 := Nat.ne_of_lt (Nat.lt_succ_of_lt (hwf.lt_of_obj hu))
        simp [hob pd, hh, h1]
      · intro a ha hap
        have h1 : a ≠ w.next + 1 := Nat.ne_of_lt (Nat.lt_succ_of_lt ha)
        simp [hob a, hh, h1, hap, Ne.symm hap]

/-- C13 on the sample world: destroying the borrowing printer 101 frees only its holder
object 5 and leaves the `int` 10 at address 2; destroying the owning printer 100 frees its
storage 4 and its holder object 3. -/
theorem C13_release_frees_witness :
    (∃ w1, Printer.dtor 101 World.demo2 = .ok () w1 ∧ w1.holders 5 = none ∧
      ((false : Bool) = false → w1.objs = World.demo2.objs ∧ w1.objs 2 = some (Val.int 10) ∧
        w1.freed = 5 :: World.demo2.freed) ∧
      ((false : Bool) = true → w1.objs = upd World.demo2.objs 2 none ∧
        w1.freed = 5 :: 2 :: World.demo2.freed)) ∧
    (∃ w1, Printer.dtor 100 World.demo2 = .ok () w1 ∧ w1.objs 4 = none ∧
      w1.objs 2 = some (Val.int 10) ∧ w1.objs 1 = some (Val.int 42) ∧ w1.freed = [3, 4]) :=
  ⟨(C13_release_frees World.demo2 101 5 2 false (.int 10) World.demo2_wf rfl rfl rfl).1,
    ⟨_, rfl, rfl, rfl, rfl, rfl⟩⟩

/-- C14 (the code violates the claim): the implicitly declared copy constructor copies `_wb`
member-wise. On the sample world, after `Printer a(42); Printer b(a);` (printers 100 and
101) both printers hold the same holder object 3, whose storage 4 is owned; destroying `b`
and then `a` deletes that holder twice, and printing `a` after destroying `b` reads a dead
holder. -/
theorem C14_copy_ctor_shares_holder :
    (∃ w1, ((Printer.ctorRef 100 1 World.demo).bind fun _ w => Printer.copyCtor 101 100 w)
        = .ok () w1 ∧
      w1.printers 100 = some ⟨3⟩ ∧ w1.printers 101 = some ⟨3⟩ ∧
      w1.holders 3 = some ⟨4, true⟩) ∧
    ((Printer.ctorRef 100 1 World.demo).bind fun _ w =>
      (Printer.copyCtor 101 100 w).bind fun _ w =>
        (Printer.dtor 101 w).bind fun _ w => Printer.dtor 100 w).fault? = some .badDelete ∧
    ((Printer.ctorRef 100 1 World.demo).bind fun _ w =>
      (Printer.copyCtor 101 100 w).bind fun _ w =>
        (Printer.dtor 101 w).bind fun _ w => Printer.print 100 w).fault?
      = some .deadObject ∧
    ((Printer.ctorRef 100 1 World.demo).bind fun _ w =>
      (Printer.copyCtor 101 100 w).bind fun _ w => Printer.assign 101 100 w).fault?
      = some .deadObject :=
  ⟨⟨_, rfl, rfl, rfl, rfl⟩, by decide, by decide, by decide⟩

/-- C15: for every world and every printer, `print()` never leaves by an exception; whenever
it returns, the object store, the holders, the printers, the allocator and the log of frees
are unchanged and only some text is appended to the output, and a second `print()` right
after it returns too and appends the same text again. It does return when the printer is
empty, and when it has a holder over a live object. -/
theorem C15_print_only_appends (w : World V) (this : Addr) :
    (∀ w1, Printer.print this w ≠ .badAlloc w1) ∧
    (∀ w1, Printer.print this w = .ok () w1 →
      w1.objs = w.objs ∧ w1.holders = w.holders ∧ w1.printers = w.printers ∧
      w1.next = w.next ∧ w1.budget = w.budget ∧ w1.freed = w.freed ∧
      ∃ txt, w1 = { w with out := w.out ++ txt } ∧
        Printer.print this w1 = .ok () { w with out := w.out ++ txt ++ txt }) ∧
    (w.printers this = some ⟨nullptr⟩ → ∃ w1, Printer.print this w = .ok () w1) ∧
    (∀ wb p own v, w.printers this = some ⟨wb⟩ → wb ≠ nullptr →
      w.holders wb = some ⟨p, own⟩ → p ≠ nullptr → w.objs p = some v →
      ∃ w1, Printer.print this w = .ok () w1) := by
  refine ⟨?_, ?_, fun h => ⟨_, print_empty w this h⟩,
    fun wb p own v hd hwb hh hp hv => ⟨_, print_holder w this wb p own v hd hwb hh hp hv⟩⟩
  · intro w1 h
    rcases print_cases w this with ⟨f, hf⟩ | ⟨txt, ht⟩
    · rw [show w = { w with out := w.out } from rfl, hf w.out] at h
      cases h
    · rw [show w = { w with out := w.out } from rfl, ht w.out] at h
      cases h
  · intro w1 h
    rcases print_cases w this with ⟨f, hf⟩ | ⟨txt, ht⟩
    · rw [show w = { w with out := w.out } from rfl, hf w.out] at h
      cases h
    · have h2 := ht w.out
      rw [show ({ w with out := w.out } : World V) = w from rfl, h] at h2
      cases h2
      exact ⟨rfl, rfl, rfl, rfl, rfl, rfl, txt, rfl, ht (w.out ++ txt)⟩

/-- C15 on the sample world: the owning printer 100 and the borrowing printer 101 each print
their line twice, and nothing but the output changes. -/
theorem C15_print_only_appends_witness :
    (∃ w1, Printer.print 100 World.demo2 = .ok () w1) ∧
    (∃ w1, Printer.print 100 World.demo2 = .ok () w1 ∧ w1.objs = World.demo2.objs ∧
      w1.holders = World.demo2.holders ∧ w1.printers = World.demo2.printers ∧
      w1.freed = World.demo2.freed) ∧
    ((Printer.print 100 World.demo2).bind fun _ w => Printer.print 100 w).out?
      = some "42\n42\n" ∧
    ((Printer.print 101 World.demo2).bind fun _ w => Printer.print 101 w).out?
      = some "[10]\n[10]\n" :=
  ⟨(C15_print_only_appends World.demo2 100).2.2.2 3 4 true (.int 42) rfl (by decide) rfl
      (by decide) rfl,
    ⟨_, rfl, ((C15_print_only_appends World.demo2 100).2.1 _ rfl).1,
      ((C15_print_only_appends World.demo2 100).2.1 _ rfl).2.1,
      ((C15_print_only_appends World.demo2 100).2.1 _ rfl).2.2.1,
      ((C15_print_only_appends World.demo2 100).2.1 _ rfl).2.2.2.2.2.1⟩,
    by decide, by decide⟩

/-- C16 (amended): whenever `Printer(const T&)` returns, the holder it created has a non-null
`_ptr`. Whenever `Printer(T*)` returns, the holder it created stores exactly the pointer it
was given, and whenever `Clone()` returns, the new holder has the source's mode, a non-null
`_ptr` when that mode is `_own = true` and exactly the source's `_ptr` when it is
`_own = false`. In a world where every live holder has a non-null `_ptr`, no sequence of
printer operations and caller stores that never hands a null pointer to `Printer(T*)`, when
it returns, leaves a live holder with a null `_ptr` (a holder leaves the store when it is
destroyed); and the destructor of a holder with `_own = false` does not run `freePtr`: it
changes nothing. -/
theorem C16_holder_address_as_given (w : World V) :
    (∀ this t w1, Printer.ctorRef this t w = .ok () w1 →
      ∃ wb p, w1.printers this = some ⟨wb⟩ ∧ w1.holders wb = some ⟨p, true⟩ ∧ p ≠ nullptr) ∧
    (∀ this p w1, Printer.ctorPtr this p w = .ok () w1 →
      ∃ wb, w1.printers this = some ⟨wb⟩ ∧ w1.holders wb = some ⟨p, false⟩) ∧
    (∀ self c w1, Writable.Clone self w = .ok c w1 →
      ∃ p own q, w.holders self = some ⟨p, own⟩ ∧ w1.holders c = some ⟨q, own⟩ ∧
        (own = true → q ≠ nullptr) ∧ (own = false → q = p)) ∧
    (HoldersNonNull w → ∀ ops w1, (∀ op, op ∈ ops → op.PtrOK) →
      runOps ops w = .ok () w1 → HoldersNonNull w1) ∧
    (∀ self p, self ≠ nullptr → w.holders self = some ⟨p, false⟩ →
      Writable.dtor self w = .ok () w) := by
  refine ⟨?_, ?_, ?_, fun hnn ops w1 hok h => runOps_nonNull ops w w1 hok hnn h, ?_⟩
  · intro this t w1 h
    simp only [Printer.ctorRef] at h
    cases hw : newWritable t true w with
    | ok c w2 =>
      rw [hw] at h
      simp only [Result.bind] at h
      cases h
      obtain ⟨-, hnew, -⟩ := newWritable_inv w t true c w2 hw
      exact ⟨c, w.next + 1, by simp, by simpa using hnew, Nat.succ_ne_zero _⟩
    | badAlloc w2 => rw [hw] at h; simp [Result.bind] at h
    | ub f => rw [hw] at h; simp [Result.bind] at h
  · intro this p w1 h
    simp only [Printer.ctorPtr, derefRef, Result.bind] at h
    cases hw : newWritable p false w with
    | ok c w2 =>
      rw [hw] at h
      cases h
      obtain ⟨-, hnew, -⟩ := newWritable_inv w p false c w2 hw
      exact ⟨c, by simp, by simpa using hnew⟩
    | badAlloc w2 => rw [hw] at h; simp at h
    | ub f => rw [hw] at h; simp at h
  · intro self c w1 h
    obtain ⟨p, own, hh, hw⟩ := Clone_inv w self c w1 h
    obtain ⟨-, hnew, -⟩ := newWritable_inv w p own c w1 hw
    cases own with
    | false =>
      exact ⟨p, false, p, hh, by simpa using hnew, (fun ho => by cases ho), fun _ => rfl⟩
    | true =>
      exact ⟨p, true, w.next + 1, hh, by simpa using hnew, fun _ => Nat.succ_ne_zero _,
        (fun ho => by cases ho)⟩
  · intro self p hs hh
    simp [Writable.dtor, WritableBase.isOwn, getHolder, hs, hh, Result.bind]

/-- C16 (amended) on the sample world, along main.cpp:145-155: no operation hands a null
pointer to `Printer(T*)`, the operations return, the printer ends with the holder 8 over the
caller's address 2, and every live holder has a non-null address. -/
theorem C16_holder_address_as_given_witness :
    HoldersNonNull World.demo ∧ (∀ op, op ∈ mainOps → op.PtrOK) ∧
    (∀ w1, runOps mainOps World.demo = .ok () w1 → HoldersNonNull w1) ∧
    (runOps mainOps World.demo).out? = some "42\n[10]\n[20]\n" ∧
    (runOps mainOps World.demo).printer? 100 = some ⟨8⟩ ∧
    (runOps mainOps World.demo).holder? 8 = some ⟨2, false⟩ :=
  ⟨(fun _ _ _ h => nomatch h), mainOps_ptrOK,
    (fun w1 h => (C16_holder_address_as_given World.demo).2.2.2.1
      (fun _ _ _ h => nomatch h) mainOps w1 mainOps_ptrOK h),
    by decide, by decide, by decide⟩

/-- C16 as stated fails: `Printer(T*)` on a null pointer returns, and the holder it created
is live with a null `_ptr`; `Clone()` of that holder (through `d = s`) returns a second live
holder with a null `_ptr`. Only `print()` on such a printer dereferences the null address. -/
theorem C16_null_pointer_counterexample :
    (∃ w1, Printer.ctorPtr 100 nullptr World.demo = .ok () w1 ∧
      w1.printers 100 = some ⟨3⟩ ∧ w1.holders 3 = some ⟨nullptr, false⟩ ∧
      ¬ HoldersNonNull w1) ∧
    ((Printer.ctorPtr 100 nullptr World.demo).bind fun _ w =>
      (Printer.ctor 101 w).bind fun _ w => Printer.assign 101 100 w).printer? 101
      = some ⟨4⟩ ∧
    ((Printer.ctorPtr 100 nullptr World.demo).bind fun _ w =>
      (Printer.ctor 101 w).bind fun _ w => Printer.assign 101 100 w).holder? 4
      = some ⟨nullptr, false⟩ ∧
    ((Printer.ctorPtr 100 nullptr World.demo).bind fun _ w => Printer.print 100 w).fault?
      = some .nullDeref :=
  ⟨⟨_, rfl, rfl, rfl, fun h => h 3 nullptr false rfl rfl⟩, by decide, by decide, by decide⟩

/-- C17: the `operator<<` of `NewStuff` writes `NewStuff...` followed by the decimal digits
of `_num` when `_num > 0`, and just `NewStuff...` when `_num <= 0`. Through the printer: an
owned box of a default `NewStuff` prints `NewStuff...\n`, and a borrowed box of `NewStuff(1)`
prints `[NewStuff...1]\n`, then `[NewStuff...2]\n` once `_num` is set to 2. -/
theorem C17_newStuff_render (n : Int) :
    (0 < n → Renderable.text (Val.newStuff n)
      = "NewStuff..." ++ String.mk (Nat.toDigits 10 n.toNat)) ∧
    (n ≤ 0 → Renderable.text (Val.newStuff n) = "NewStuff...") ∧
    ((Printer.ctorRef 100 1 World.demo3).bind fun _ w => Printer.print 100 w).out?
      = some "NewStuff...\n" ∧
    ((Printer.ctorPtr 100 2 World.demo3).bind fun _ w =>
      (Printer.print 100 w).bind fun _ w =>
        (writeObj 2 (Val.newStuff 2) w).bind fun _ w => Printer.print 100 w).out?
      = some "[NewStuff...1]\n[NewStuff...2]\n" := by
  refine ⟨fun h => ?_, fun h => ?_, by decide, by decide⟩
  · have hn : ¬ n ≤ 0 := not_le.mpr h
    obtain ⟨m, rfl⟩ := Int.eq_ofNat_of_zero_le (le_of_lt h)
    simp [Renderable.text, Val.text, h]
    rfl
  · have hn : ¬ 0 < n := not_lt.mpr h
    simp [Renderable.text, Val.text, hn]

/-- C17 at `_num = 1`, `0` and `-5`, and along main.cpp:168-176 (`printer = n;`,
`printer = newStuffPtr;`). -/
theorem C17_newStuff_render_witness :
    Renderable.text (Val.newStuff 1) = "NewStuff...1" ∧
    Renderable.text (Val.newStuff 0) = "NewStuff..." ∧
    Renderable.text (Val.newStuff (-5)) = "NewStuff..." ∧
    Renderable.text (Val.newStuff 2147483647) = "NewStuff...2147483647" ∧
    ((Printer.ctor 100 World.demo3).bind fun _ w =>
      (Printer.assignValue 100 200 1 w).bind fun _ w =>
        (Printer.print 100 w).bind fun _ w =>
          (Printer.assignPtr 100 200 2 w).bind fun _ w =>
            (Printer.print 100 w).bind fun _ w =>
              (writeObj 2 (Val.newStuff 2) w).bind fun _ w => Printer.print 100 w).out?
      = some "NewStuff...\n[NewStuff...1]\n[NewStuff...2]\n" :=
  ⟨(C17_newStuff_render 1).1 (by decide), (C17_newStuff_render 0).2.1 (by decide),
    (C17_newStuff_render (-5)).2.1 (by decide), (C17_newStuff_render 2147483647).1 (by decide),
    by decide⟩

end Claims

end MultifuncTemplate
